import Mathlib

/-!
Verification of the fortress anti-DDoS reverse proxy core against its
natural-language specification.  The Rust sources are shallowly embedded:
pure functions become Lean functions, stateful components become explicit
state-passing functions, `Instant` timestamps become `Nat` (nanoseconds or
seconds, per component, as noted), machine integers become `Nat`/`Int` with
explicit reductions `% 2^w` where overflow matters, and fallible code
returns `Option`.  Strings are lists of characters; byte buffers are lists
of naturals `< 256`.
-/

namespace Fortress

/-- Strings are modelled as lists of characters. -/
abbrev Str := List Char

/-- IP addresses are abstract atoms; nothing in the verified logic inspects
their structure (the subnet/hash views are abstracted as functions). -/
abbrev Ip := Nat

/-! ## MemoryStore blocked-IP cache (src/storage/memory.rs)

Timestamps for this component are abstract `Instant` ticks modelled as `Nat`.
-/

/-- Entry of the blocked-IP cache (`BlockedEntry` in src/storage/memory.rs). -/
structure BlockedEntry where
  reason : Str
  expires_at : Option Nat
  source : Str
deriving DecidableEq

/-- The `blocked_ips` table of `MemoryStore`, as a map from IPs to entries. -/
def BlockedMap := Ip → Option BlockedEntry

/-- `MemoryStore::block_ip` (src/storage/memory.rs lines 306-316): inserts an
entry whose expiry is `now + d` when a duration `d` is supplied, with source
tag `"auto"`. -/
def block_ip (m : BlockedMap) (now : Nat) (ip : Ip) (reason : Str)
    (duration : Option Nat) : BlockedMap :=
  fun j => if j = ip then
    some ⟨reason, duration.map (fun d => now + d), ['a', 'u', 't', 'o']⟩
  else m j

/-- `MemoryStore::is_blocked` (src/storage/memory.rs lines 290-304): returns
the entry if present and unexpired; an expired entry is removed from the map
in the same call and `none` is returned.  The returned pair is
(answer, updated map). -/
def is_blocked (m : BlockedMap) (now : Nat) (ip : Ip) :
    Option BlockedEntry × BlockedMap :=
  match m ip with
  | none => (none, m)
  | some e =>
    match e.expires_at with
    | some exp =>
      if exp ≤ now then (none, fun j => if j = ip then none else m j)
      else (some e, m)
    | none => (some e, m)

/-- C6: after `block_ip(ip, reason, Some(D))` with no intervening update,
`is_blocked(ip)` at any time strictly before the recorded expiry `now + D`
returns the stored entry (and leaves the map unchanged), and at any time at
or after the expiry it returns `none` and removes the entry from the map in
that same call, with no explicit cleanup needed. -/
theorem c6_block_ip_is_blocked (m : BlockedMap) (ip : Ip) (reason : Str)
    (D now t : Nat) :
    (t < now + D →
      is_blocked (block_ip m now ip reason (some D)) t ip
        = (some ⟨reason, some (now + D), ['a', 'u', 't', 'o']⟩,
           block_ip m now ip reason (some D)))
    ∧ (now + D ≤ t →
      (is_blocked (block_ip m now ip reason (some D)) t ip).1 = none
      ∧ (is_blocked (block_ip m now ip reason (some D)) t ip).2 ip = none) := by
  have hm : block_ip m now ip reason (some D) ip
      = some ⟨reason, some (now + D), ['a', 'u', 't', 'o']⟩ := by
    simp [block_ip]
  constructor
  · intro h
    unfold is_blocked
    rw [hm]
    dsimp only
    rw [if_neg (by omega)]
  · intro h
    unfold is_blocked
    rw [hm]
    dsimp only
    rw [if_pos (by omega)]
    exact ⟨rfl, by simp⟩

/-- Witness for C6 at a concrete map, IP, duration and two query times. -/
theorem c6_block_ip_is_blocked_witness :
    is_blocked (block_ip (fun _ => none) 0 1 [] (some 5)) 2 1
      = (some ⟨[], some 5, ['a', 'u', 't', 'o']⟩,
         block_ip (fun _ => none) 0 1 [] (some 5))
    ∧ (is_blocked (block_ip (fun _ => none) 0 1 [] (some 5)) 7 1).1 = none := by
  refine ⟨(c6_block_ip_is_blocked (fun _ => none) 1 [] 5 0 2).1 (by omega), ?_⟩
  exact ((c6_block_ip_is_blocked (fun _ => none) 1 [] 5 0 7).2 (by omega)).1

/-! ## Escalation engine (src/protection/escalation.rs)

Times are seconds as `Nat`; `last.elapsed()` becomes truncated subtraction
`now - last`.  The protection level L0..L4 is its `u8` encoding.  The
sequential model makes the `compare_exchange` always succeed. -/

/-- State of `EscalationEngine`: current level (0..4), the two
last-transition instants, and the two sustain counters. -/
structure EngState where
  current_level : Nat
  last_escalation : Nat
  last_deescalation : Nat
  escalation_counter : Nat
  deescalation_counter : Nat
deriving DecidableEq

/-- `ESCALATION_COOLDOWN_SECS` (src/protection/escalation.rs line 31). -/
def ESCALATION_COOLDOWN_SECS : Nat := 10

/-- A fresh engine at instant `t` (`EscalationEngine::new`): level 0, both
last-transition timestamps set to `t`, counters zero. -/
def engNew (t : Nat) : EngState := ⟨0, t, t, 0, 0⟩

/-- `EscalationEngine::set_level` (lines 69-77): stores the requested level
unconditionally; if it differs from the previous one, both sustain counters
reset.  No cooldown check and no step-size restriction. -/
def set_level (s : EngState) (l : Nat) : EngState :=
  if s.current_level = l then { s with current_level := l }
  else { s with current_level := l, escalation_counter := 0,
                deescalation_counter := 0 }

/-- `EscalationEngine::try_escalate` (lines 183-213): no-op at level ≥ 4 or
within the 10 s escalation cooldown; otherwise one step up, recording the
transition instant and resetting the de-escalation counter. -/
def try_escalate (s : EngState) (now : Nat) : EngState :=
  if 4 ≤ s.current_level then s
  else if now - s.last_escalation < ESCALATION_COOLDOWN_SECS then s
  else { s with current_level := s.current_level + 1, last_escalation := now,
                deescalation_counter := 0 }

/-- `EscalationEngine::try_deescalate` (lines 215-245): no-op at level 0 or
within the de-escalation cooldown; otherwise one step down. -/
def try_deescalate (s : EngState) (now cooldown : Nat) : EngState :=
  if s.current_level = 0 then s
  else if now - s.last_deescalation < cooldown then s
  else { s with current_level := s.current_level - 1, last_deescalation := now,
                deescalation_counter := 0 }

/-- C3 counterexample: the claim that the level "only ever changes by ±1 and
never more than once per max(escalation_cooldown, deescalation_cooldown)
across all ways the level can change including set_level" is false.
(1) A single `set_level` call jumps a fresh engine from level 0 to level 4.
(2) With `deescalation_cooldown = 60`, two `try_escalate` transitions fired
10 s apart both change the level, i.e. two consecutive changes separated by
10 < max(10, 60) seconds. -/
theorem c3_counterexample :
    ((set_level (engNew 0) 4).current_level = 4 ∧ (engNew 0).current_level = 0)
    ∧ ((try_escalate (engNew 0) 10).current_level = 1
       ∧ (try_escalate (try_escalate (engNew 0) 10) 20).current_level = 2
       ∧ 20 - 10 < max ESCALATION_COOLDOWN_SECS 60) := by
  decide

/-- C3 (amended): each automatic transition changes the level by exactly one
step — `try_escalate` either leaves the state unchanged or moves one level up,
and only when at least 10 s (`ESCALATION_COOLDOWN_SECS`) have elapsed since
the last escalation; `try_deescalate` either leaves the state unchanged or
moves one level down, and only when at least the configured de-escalation
cooldown has elapsed since the last de-escalation.  The manual `set_level`
API, by contrast, sets the level to any requested value at any time, so no
±1 or combined-cooldown bound holds across all ways the level can change. -/
theorem c3_amended_step_discipline (s : EngState) (now cooldown l : Nat) :
    (try_escalate s now = s
      ∨ ((try_escalate s now).current_level = s.current_level + 1
         ∧ s.current_level < 4
         ∧ ESCALATION_COOLDOWN_SECS ≤ now - s.last_escalation
         ∧ (try_escalate s now).last_escalation = now))
    ∧ (try_deescalate s now cooldown = s
      ∨ ((try_deescalate s now cooldown).current_level = s.current_level - 1
         ∧ 1 ≤ s.current_level
         ∧ cooldown ≤ now - s.last_deescalation
         ∧ (try_deescalate s now cooldown).last_deescalation = now))
    ∧ (set_level s l).current_level = l := by
  refine ⟨?_, ?_, ?_⟩
  · unfold try_escalate
    by_cases h1 : 4 ≤ s.current_level
    · simp [h1]
    · by_cases h2 : now - s.last_escalation < ESCALATION_COOLDOWN_SECS
      · simp [h1, h2]
      · simp [h1, h2]
        omega
  · unfold try_deescalate
    by_cases h1 : s.current_level = 0
    · simp [h1]
    · by_cases h2 : now - s.last_deescalation < cooldown
      · simp [h1, h2]
      · simp [h1, h2]
        omega
  · unfold set_level
    by_cases h : s.current_level = l <;> simp [h]

/-! ## The signature comparison in the challenge system is short-circuiting
(src/protection/challenge.rs lines 125 and 250)

`has_valid_clearance` and `verify_nojs_token` compare the presented signature
with the recomputed HMAC using Rust's default `!=` on strings, which compares
byte by byte and stops at the first difference.  `cmpSteps` is that
comparison's cost model: the number of per-character comparisons performed on
two equal-length strings. -/

/-- Number of character comparisons performed by a short-circuiting equality
scan — the semantics of the `signature != expected_signature` compare used at
src/protection/challenge.rs lines 125 and 250. -/
def cmpSteps : Str → Str → Nat
  | a :: as_, b :: bs => 1 + (if a = b then cmpSteps as_ bs else 0)
  | _, _ => 0

/-- C8 evaluation: the comparison used for signatures is not constant time.
For two pairs of equal-length (length 8) signature strings, one differing at
position 0 and one differing only at position 7, the short-circuit compare
performs 1 step versus 8 steps, so its running time depends on the position
of the first differing byte — contradicting the spec's requirement of a
constant-time compare. -/
theorem c8_compare_not_constant_time :
    cmpSteps ['a', 'x', 'x', 'x', 'x', 'x', 'x', 'x']
             ['b', 'x', 'x', 'x', 'x', 'x', 'x', 'x'] = 1
    ∧ cmpSteps ['a', 'x', 'x', 'x', 'x', 'x', 'x', 'x']
               ['a', 'x', 'x', 'x', 'x', 'x', 'x', 'y'] = 8
    ∧ (1 : Nat) ≠ 8 := by
  decide

/-! ## Decimal formatting and parsing

`natToStr`/`intToStr` model Rust's `format!("{}", n)` on integers;
`parseI64` models `str::parse::<i64>()` (optional sign, decimal digits,
64-bit range check). -/

/-- Character of one decimal digit value. -/
def digitChar (n : Nat) : Char := Char.ofNat (48 + n)

/-- Decimal digit writer with explicit fuel, structurally recursive so that
concrete evaluation reduces inside the kernel; any `fuel > n` gives the full
representation. -/
def natToStrAux : Nat → Nat → Str
  | 0, _ => []
  | fuel + 1, n =>
    if n < 10 then [digitChar n]
    else natToStrAux fuel (n / 10) ++ [digitChar (n % 10)]

/-- Decimal representation of a natural number, most significant digit
first. -/
def natToStr (n : Nat) : Str := natToStrAux (n + 1) n

/-- Decimal representation of an integer (`format!("{}", i)` for `i64`). -/
def intToStr (i : Int) : Str :=
  if i < 0 then '-' :: natToStr i.natAbs else natToStr i.toNat

/-- Digit-accumulating scan used by `parseI64`; fails on any non-digit. -/
def parseDigitsAux (acc : Nat) : Str → Option Nat
  | [] => some acc
  | c :: r => if c.isDigit then parseDigitsAux (acc * 10 + (c.toNat - 48)) r
              else none

/-- Parse a non-empty all-digit string to a natural number. -/
def parseDigits (s : Str) : Option Nat :=
  match s with
  | [] => none
  | _ => parseDigitsAux 0 s

/-- Model of Rust `str::parse::<i64>()`: optional `+`/`-` sign, at least one
decimal digit, value within `[-2^63, 2^63 - 1]`. -/
def parseI64 (s : Str) : Option Int :=
  match s with
  | [] => none
  | c :: rest =>
    if c = '-' then
      (parseDigits rest).bind fun m =>
        if m ≤ 2 ^ 63 then some (-(m : Int)) else none
    else if c = '+' then
      (parseDigits rest).bind fun m =>
        if m ≤ 2 ^ 63 - 1 then some (m : Int) else none
    else
      (parseDigits s).bind fun m =>
        if m ≤ 2 ^ 63 - 1 then some (m : Int) else none

theorem digitChar_isDigit {n : Nat} (h : n < 10) : (digitChar n).isDigit = true := by
  interval_cases n <;> decide

theorem digitChar_toNat {n : Nat} (h : n < 10) : (digitChar n).toNat = 48 + n := by
  interval_cases n <;> decide

theorem natToStrAux_ne_nil (fuel n : Nat) (h : n < fuel) :
    natToStrAux fuel n ≠ [] := by
  cases fuel with
  | zero => omega
  | succ f =>
    rw [natToStrAux]
    split <;> simp

theorem natToStr_ne_nil (n : Nat) : natToStr n ≠ [] :=
  natToStrAux_ne_nil _ _ (by omega)

theorem natToStrAux_digits :
    ∀ fuel n, n < fuel → ∀ c ∈ natToStrAux fuel n, c.isDigit = true := by
  intro fuel
  induction fuel with
  | zero => intro n hn; omega
  | succ f ih =>
    intro n hn c hc
    rw [natToStrAux] at hc
    split at hc
    · next h =>
      simp only [List.mem_singleton] at hc
      exact hc ▸ digitChar_isDigit h
    · next h =>
      rcases List.mem_append.mp hc with h1 | h1
      · refine ih (n / 10) ?_ c h1
        have := Nat.div_lt_self (show 0 < n by omega) (show 1 < 10 by omega)
        omega
      · simp only [List.mem_singleton] at h1
        exact h1 ▸ digitChar_isDigit (Nat.mod_lt _ (by omega))

theorem natToStr_digits (n : Nat) : ∀ c ∈ natToStr n, c.isDigit = true :=
  natToStrAux_digits _ _ (by omega)

theorem isDigit_ne {c : Char} (h : c.isDigit = true) :
    c ≠ '-' ∧ c ≠ '+' ∧ c ≠ ':' ∧ c ≠ ';' ∧ c.isWhitespace = false := by
  refine ⟨?_, ?_, ?_, ?_, ?_⟩
  · intro he; rw [he] at h; exact absurd h (by decide)
  · intro he; rw [he] at h; exact absurd h (by decide)
  · intro he; rw [he] at h; exact absurd h (by decide)
  · intro he; rw [he] at h; exact absurd h (by decide)
  · by_contra hw
    rw [Bool.not_eq_false] at hw
    have h32 : c = ' ' ∨ c = '\t' ∨ c = '\x0d' ∨ c = '\n' := by
      simpa [Char.isWhitespace, or_assoc] using hw
    rcases h32 with h1 | h1 | h1 | h1 <;> (rw [h1] at h; exact absurd h (by decide))

theorem parseDigitsAux_append (acc : Nat) (xs : Str) (c : Char) :
    parseDigitsAux acc (xs ++ [c])
      = (parseDigitsAux acc xs).bind
          (fun m => if c.isDigit then some (m * 10 + (c.toNat - 48)) else none) := by
  induction xs generalizing acc with
  | nil => simp [parseDigitsAux]
  | cons x xs ih =>
    simp only [List.cons_append, parseDigitsAux]
    split
    · exact ih _
    · simp

theorem parseDigitsAux_natToStrAux :
    ∀ fuel n, n < fuel → parseDigitsAux 0 (natToStrAux fuel n) = some n := by
  intro fuel
  induction fuel with
  | zero => intro n hn; omega
  | succ f ih =>
    intro n hn
    rw [natToStrAux]
    split
    · next h =>
      simp [parseDigitsAux, digitChar_isDigit h, digitChar_toNat h]
    · next h =>
      have hstep : n / 10 < f := by
        have := Nat.div_lt_self (show 0 < n by omega) (show 1 < 10 by omega)
        omega
      rw [parseDigitsAux_append, ih (n / 10) hstep]
      have h10 : n % 10 < 10 := Nat.mod_lt _ (by omega)
      simp only [Option.some_bind, digitChar_isDigit h10, if_true,
        digitChar_toNat h10, Option.some.injEq]
      omega

theorem parseDigitsAux_natToStr (n : Nat) : parseDigitsAux 0 (natToStr n) = some n :=
  parseDigitsAux_natToStrAux _ _ (by omega)

theorem parseDigits_natToStr (n : Nat) : parseDigits (natToStr n) = some n := by
  have h := parseDigitsAux_natToStr n
  unfold parseDigits
  rcases hs : natToStr n with _ | ⟨a, l⟩
  · exact absurd hs (natToStr_ne_nil n)
  · dsimp only
    rw [← hs]
    exact h

/-- Round trip: printing an `i64`-range integer and reparsing it recovers the
integer. -/
theorem parseI64_intToStr {t : Int} (h1 : -(2 : Int) ^ 63 ≤ t)
    (h2 : t ≤ 2 ^ 63 - 1) : parseI64 (intToStr t) = some t := by
  unfold intToStr
  by_cases ht : t < 0
  · rw [if_pos ht]
    simp only [parseI64]
    rw [if_pos trivial, parseDigits_natToStr]
    simp only [Option.some_bind]
    rw [if_pos (by omega)]
    simp only [Option.some.injEq]
    omega
  · rw [if_neg ht]
    rcases hs : natToStr t.toNat with _ | ⟨a, l⟩
    · exact absurd hs (natToStr_ne_nil _)
    · have hd : a.isDigit = true := natToStr_digits t.toNat a (by rw [hs]; simp)
      simp only [parseI64]
      rw [if_neg (isDigit_ne hd).1, if_neg (isDigit_ne hd).2.1, ← hs,
        parseDigits_natToStr]
      simp only [Option.some_bind]
      rw [if_pos (by omega)]
      simp only [Option.some.injEq]
      omega

/-! ## The nojs fallback token verifier (src/protection/challenge.rs 248-263)

The HMAC-SHA256-then-base64url signing primitive of `compute_signature` is an
external crate; it is abstracted as a function `sign (challenge) (nonce)
(purpose)`.  Timestamps are Unix seconds as `Int`. -/

/-- `ChallengeSystem::verify_nojs_token`: reject on signature mismatch, then
check 5-minute freshness — but only when the first `:`-separated field of the
token parses as an `i64`; otherwise fall through and accept. -/
def verify_nojs_token (sign : Str → Str → Str → Str) (now : Int)
    (token sig : Str) : Bool :=
  if sig ≠ sign token ['0'] ['n', 'o', 'j', 's'] then false
  else
    match parseI64 (token.takeWhile (fun c => c ≠ ':')) with
    | some ts => if 300 < (now - ts).natAbs then false else true
    | none => true

/-- C9: for every token whose first `:`-separated field does not parse as an
`i64`, `verify_nojs_token` accepts whenever the signature matches the
recomputed HMAC with the "nojs" purpose tag — the 5-minute freshness check is
silently skipped, at any `now`. -/
theorem c9_nojs_skips_freshness_on_bad_timestamp
    (sign : Str → Str → Str → Str) (now : Int) (token sig : Str)
    (hp : parseI64 (token.takeWhile (fun c => c ≠ ':')) = none)
    (hs : sig = sign token ['0'] ['n', 'o', 'j', 's']) :
    verify_nojs_token sign now token sig = true := by
  unfold verify_nojs_token
  rw [if_neg (by simp [hs])]
  rw [hp]

/-- Witness for C9: a token `"x:1"` with non-numeric timestamp field and a
matching signature is accepted at an arbitrary late time. -/
theorem c9_nojs_witness :
    verify_nojs_token (fun _ _ _ => ['s']) 999999 ['x', ':', '1'] ['s'] = true :=
  c9_nojs_skips_freshness_on_bad_timestamp (fun _ _ _ => ['s']) 999999
    ['x', ':', '1'] ['s'] (by decide) rfl

/-! ## Auto-ban manager (src/protection/auto_ban.rs)

Times are seconds as `Nat`; `Instant` subtraction is truncated `Nat`
subtraction.  The per-IP `DashMap`s become functions from IPs.  The /24 or
/48 subnet key of an IP is abstracted as a function `subnetOf`. -/

/-- `AutoBanConfig` fields used by `AutoBanManager` (src/config). -/
structure AutoBanConfig where
  enabled : Bool
  ban_threshold_5m : Nat
  ban_threshold_15m : Nat
  ban_threshold_1h : Nat
  repeat_ban_threshold : Nat
deriving DecidableEq

/-- `BanEntry` (src/protection/auto_ban.rs lines 19-25). -/
structure BanEntry where
  banned_at : Nat
  duration : Nat
  reason : Str
  block_count : Nat
deriving DecidableEq

/-- `IpBlockHistory` (lines 27-31): deque of block timestamps plus the number
of times this IP was auto-banned. -/
structure IpBlockHistory where
  blocks : List Nat
  ban_count : Nat
deriving DecidableEq

/-- `IpBlockHistory::cleanup` (lines 42-51): pop front entries older than the
1-hour horizon. -/
def IpBlockHistory.cleanup (h : IpBlockHistory) (now : Nat) : IpBlockHistory :=
  { h with blocks := h.blocks.dropWhile (fun ts => decide (ts < now - 3600)) }

/-- `IpBlockHistory::count_in_window` (lines 53-57). -/
def IpBlockHistory.count_in_window (h : IpBlockHistory) (now window_secs : Nat) : Nat :=
  (h.blocks.filter (fun ts => decide (now - window_secs ≤ ts))).length

/-- State of `AutoBanManager`: active bans, per-IP history, subnet counters. -/
structure AutoBanState where
  bans : Ip → Option BanEntry
  history : Ip → IpBlockHistory
  subnet_bans : Ip → Nat

/-- `AutoBanManager::is_banned` (lines 90-104). -/
def is_banned (cfg : AutoBanConfig) (st : AutoBanState) (ip : Ip) (now : Nat) :
    Option Str :=
  if !cfg.enabled then none
  else match st.bans ip with
    | some entry =>
      if now - entry.banned_at < entry.duration then some entry.reason else none
    | none => none

/-- Reason string `repeat_offender_ban_{ban_count + 1}` (line 134). -/
def reasonRepeat (bc : Nat) : Str :=
  ['r', 'e', 'p', 'e', 'a', 't', '_', 'o', 'f', 'f', 'e', 'n', 'd', 'e', 'r',
   '_', 'b', 'a', 'n', '_'] ++ natToStr (bc + 1)

/-- Reason string `1h_threshold_{blocks}_blocks` (line 137). -/
def reason1h (b : Nat) : Str :=
  ['1', 'h', '_', 't', 'h', 'r', 'e', 's', 'h', 'o', 'l', 'd', '_']
    ++ natToStr b ++ ['_', 'b', 'l', 'o', 'c', 'k', 's']

/-- Reason string `15m_threshold_{blocks}_blocks` (line 140). -/
def reason15m (b : Nat) : Str :=
  ['1', '5', 'm', '_', 't', 'h', 'r', 'e', 's', 'h', 'o', 'l', 'd', '_']
    ++ natToStr b ++ ['_', 'b', 'l', 'o', 'c', 'k', 's']

/-- Reason string `5m_threshold_{blocks}_blocks` (line 143). -/
def reason5m (b : Nat) : Str :=
  ['5', 'm', '_', 't', 'h', 'r', 'e', 's', 'h', 'o', 'l', 'd', '_']
    ++ natToStr b ++ ['_', 'b', 'l', 'o', 'c', 'k', 's']

/-- The `ban_duration` if/else chain of `record_block` (lines 132-146):
repeat offender 24 h, else 1-hour threshold 2 h, else 15-minute threshold
30 min, else 5-minute threshold 5 min, else no ban. -/
def select_ban (cfg : AutoBanConfig) (ban_count blocks_1h blocks_15m blocks_5m : Nat) :
    Option (Nat × Str) :=
  if cfg.repeat_ban_threshold ≤ ban_count then some (86400, reasonRepeat ban_count)
  else if cfg.ban_threshold_1h ≤ blocks_1h then some (7200, reason1h blocks_1h)
  else if cfg.ban_threshold_15m ≤ blocks_15m then some (1800, reason15m blocks_15m)
  else if cfg.ban_threshold_5m ≤ blocks_5m then some (300, reason5m blocks_5m)
  else none

/-- The cleaned history of `ip` with the current block pushed at the back
(lines 119-123 of `record_block`). -/
def pushedHistory (st : AutoBanState) (ip : Ip) (now : Nat) : IpBlockHistory :=
  let h0 := (st.history ip).cleanup now
  { h0 with blocks := h0.blocks ++ [now] }

/-- `AutoBanManager::record_block` (lines 108-177): no-op when disabled or
already banned; otherwise push the block into the (cleaned) history, evaluate
the threshold ladder, and on a match increment `ban_count`, insert the ban and
bump the subnet counter.  Returns whether a new ban was created, with the new
state. -/
def record_block (cfg : AutoBanConfig) (subnetOf : Ip → Ip) (st : AutoBanState)
    (ip : Ip) (now : Nat) : Bool × AutoBanState :=
  if !cfg.enabled then (false, st)
  else if (is_banned cfg st ip now).isSome then (false, st)
  else
    let h1 := pushedHistory st ip now
    let blocks_1h := h1.count_in_window now 3600
    let blocks_15m := h1.count_in_window now 900
    let blocks_5m := h1.count_in_window now 300
    match select_ban cfg h1.ban_count blocks_1h blocks_15m blocks_5m with
    | some (duration, reason) =>
      let h2 := { h1 with ban_count := h1.ban_count + 1 }
      (true,
        { bans := fun j => if j = ip then
            some ⟨now, duration, reason, max (max blocks_5m blocks_15m) blocks_1h⟩
          else st.bans j,
          history := fun j => if j = ip then h2 else st.history j,
          subnet_bans := fun k => if k = subnetOf ip then
            st.subnet_bans (subnetOf ip) + 1 else st.subnet_bans k })
    | none =>
      (false, { st with history := fun j => if j = ip then h1 else st.history j })

/-- The ban ladder as an ordered rule list, following the spec's words: first
matching rule from most aggressive to least (repeat → 24 h, 1 h → 2 h,
15 m → 30 min, 5 m → 5 min). -/
def autoBanRules (cfg : AutoBanConfig) (ban_count blocks_1h blocks_15m blocks_5m : Nat) :
    List (Bool × Nat) :=
  [(decide (cfg.repeat_ban_threshold ≤ ban_count), 86400),
   (decide (cfg.ban_threshold_1h ≤ blocks_1h), 7200),
   (decide (cfg.ban_threshold_15m ≤ blocks_15m), 1800),
   (decide (cfg.ban_threshold_5m ≤ blocks_5m), 300)]

/-- C2 counterexample: with thresholds (5m=10, 15m=25, 1h=50), repeat
threshold 3, an IP with `ban_count = 0`, no active ban, 45 blocks recorded
55 minutes ago and 9 blocks 5 seconds ago, the next `record_block` call makes
the count of blocks in the last 5 minutes reach exactly 10 — but the created
ban lasts 7200 s (the 1-hour rule fires first on the 55 blocks in the last
hour), not the 300 s the claim asserts for that call. -/
theorem c2_counterexample :
    (pushedHistory
        ⟨fun _ => none,
         fun _ => ⟨List.replicate 45 10100 ++ List.replicate 9 12995, 0⟩,
         fun _ => 0⟩ 0 13000).count_in_window 13000 300 = 10
    ∧ (record_block ⟨true, 10, 25, 50, 3⟩ (fun i => i)
        ⟨fun _ => none,
         fun _ => ⟨List.replicate 45 10100 ++ List.replicate 9 12995, 0⟩,
         fun _ => 0⟩ 0 13000).1 = true
    ∧ ((record_block ⟨true, 10, 25, 50, 3⟩ (fun i => i)
        ⟨fun _ => none,
         fun _ => ⟨List.replicate 45 10100 ++ List.replicate 9 12995, 0⟩,
         fun _ => 0⟩ 0 13000).2.bans 0).map BanEntry.duration = some 7200
    ∧ (7200 : Nat) ≠ 300 := by
  refine ⟨by decide, by decide, ?_, by decide⟩
  decide

/-- C2 (amended): with auto-ban enabled and thresholds (5m=10, 15m=25,
1h=50): (A) for an IP with `ban_count` below the repeat threshold and no
active ban, the `record_block` call that makes the 5-minute count reach 10 —
provided the 15-minute count is still below 25 and the 1-hour count below 50
at that call — returns true, creates a ban with duration 300 s starting now,
and increments the IP's `ban_count`; while that ban is active every further
`record_block` returns false and leaves the state (in particular the block
history) unchanged; (B) in general any call made while a ban is active
returns false and changes nothing; (C) the selected rule is always the first
matching one in the order repeat-offender → 24 h, 1-hour → 2 h,
15-minute → 30 min, 5-minute → 5 min. -/
theorem is_banned_some (cfg : AutoBanConfig) (st : AutoBanState) (ip : Ip)
    (now : Nat) (e : BanEntry) (hen : cfg.enabled = true)
    (he : st.bans ip = some e) (hlt : now - e.banned_at < e.duration) :
    is_banned cfg st ip now = some e.reason := by
  unfold is_banned
  rw [hen]
  simp only [Bool.not_true, Bool.false_eq_true, if_false]
  rw [he]
  dsimp only
  rw [if_pos hlt]

theorem c2_auto_ban_ladder (R : Nat) (subnetOf : Ip → Ip) (st : AutoBanState)
    (ip : Ip) (now : Nat) :
    ((st.history ip).ban_count < R →
      is_banned ⟨true, 10, 25, 50, R⟩ st ip now = none →
      (pushedHistory st ip now).count_in_window now 300 = 10 →
      (pushedHistory st ip now).count_in_window now 900 < 25 →
      (pushedHistory st ip now).count_in_window now 3600 < 50 →
      (record_block ⟨true, 10, 25, 50, R⟩ subnetOf st ip now).1 = true
      ∧ ((record_block ⟨true, 10, 25, 50, R⟩ subnetOf st ip now).2.history ip).ban_count
          = (st.history ip).ban_count + 1
      ∧ ((record_block ⟨true, 10, 25, 50, R⟩ subnetOf st ip now).2.bans ip).map
            (fun e => (e.banned_at, e.duration, e.reason)) = some (now, 300, reason5m 10)
      ∧ (∀ now2, now2 - now < 300 →
          record_block ⟨true, 10, 25, 50, R⟩ subnetOf
              (record_block ⟨true, 10, 25, 50, R⟩ subnetOf st ip now).2 ip now2
            = (false, (record_block ⟨true, 10, 25, 50, R⟩ subnetOf st ip now).2)))
    ∧ (∀ st' now', (is_banned ⟨true, 10, 25, 50, R⟩ st' ip now').isSome →
        record_block ⟨true, 10, 25, 50, R⟩ subnetOf st' ip now' = (false, st'))
    ∧ (∀ cfg bc b1h b15 b5,
        (select_ban cfg bc b1h b15 b5).map Prod.fst
          = ((autoBanRules cfg bc b1h b15 b5).find? (fun p => p.1)).map Prod.snd) := by
  have hgen : ∀ (cfg : AutoBanConfig) st' now', cfg.enabled = true →
      (is_banned cfg st' ip now').isSome →
      record_block cfg subnetOf st' ip now' = (false, st') := by
    intro cfg st' now' hen hb
    unfold record_block
    rw [hen]
    simp only [Bool.not_true, Bool.false_eq_true, if_false]
    rw [if_pos hb]
  refine ⟨?_, fun st' now' hb => hgen _ st' now' rfl hb, ?_⟩
  · intro hbc hnb h5 h15 h1h
    have hsel : select_ban ⟨true, 10, 25, 50, R⟩ (pushedHistory st ip now).ban_count
        ((pushedHistory st ip now).count_in_window now 3600)
        ((pushedHistory st ip now).count_in_window now 900)
        ((pushedHistory st ip now).count_in_window now 300)
        = some (300, reason5m 10) := by
      have hbc' : (pushedHistory st ip now).ban_count = (st.history ip).ban_count := rfl
      unfold select_ban
      rw [if_neg (by simp only [hbc']; omega), if_neg (by simp only; omega),
        if_neg (by simp only; omega), if_pos (by simp only; omega), h5]
    have hrec : record_block ⟨true, 10, 25, 50, R⟩ subnetOf st ip now
        = (true,
          { bans := fun j => if j = ip then
              some ⟨now, 300, reason5m 10,
                max (max ((pushedHistory st ip now).count_in_window now 300)
                         ((pushedHistory st ip now).count_in_window now 900))
                    ((pushedHistory st ip now).count_in_window now 3600)⟩
            else st.bans j,
            history := fun j => if j = ip then
              { pushedHistory st ip now with
                  ban_count := (pushedHistory st ip now).ban_count + 1 }
            else st.history j,
            subnet_bans := fun k => if k = subnetOf ip then
              st.subnet_bans (subnetOf ip) + 1 else st.subnet_bans k }) := by
      unfold record_block
      simp only [Bool.not_true, Bool.false_eq_true, if_false]
      rw [if_neg (by rw [hnb]; simp)]
      rw [hsel]
    refine ⟨by rw [hrec], ?_, ?_, ?_⟩
    · rw [hrec]
      simp [pushedHistory, IpBlockHistory.cleanup]
    · rw [hrec]
      simp
    intro now2 hlt
    refine hgen _ _ now2 rfl ?_
    have he : (record_block ⟨true, 10, 25, 50, R⟩ subnetOf st ip now).2.bans ip
        = some ⟨now, 300, reason5m 10,
            max (max ((pushedHistory st ip now).count_in_window now 300)
                     ((pushedHistory st ip now).count_in_window now 900))
                ((pushedHistory st ip now).count_in_window now 3600)⟩ := by
      rw [hrec]
      simp
    rw [is_banned_some _ _ ip now2 _ rfl he hlt]
    rfl
  · intro cfg bc b1h b15 b5
    unfold select_ban autoBanRules
    by_cases h1 : cfg.repeat_ban_threshold ≤ bc
    · simp [h1]
    · by_cases h2 : cfg.ban_threshold_1h ≤ b1h
      · simp [h1, h2]
      · by_cases h3 : cfg.ban_threshold_15m ≤ b15
        · simp [h1, h2, h3]
        · by_cases h4 : cfg.ban_threshold_5m ≤ b5
          · simp [h1, h2, h3, h4]
          · simp [h1, h2, h3, h4]

/-- Witness for C2 at a concrete history: 9 blocks 5 s old, the 10th arriving
now, repeat threshold 1, no active ban. -/
theorem c2_auto_ban_ladder_witness :
    (record_block ⟨true, 10, 25, 50, 1⟩ (fun i => i)
      ⟨fun _ => none, fun _ => ⟨List.replicate 9 995, 0⟩, fun _ => 0⟩ 7 1000).1 = true
    ∧ ((record_block ⟨true, 10, 25, 50, 1⟩ (fun i => i)
      ⟨fun _ => none, fun _ => ⟨List.replicate 9 995, 0⟩, fun _ => 0⟩ 7 1000).2.history 7).ban_count = 1 := by
  have h := (c2_auto_ban_ladder 1 (fun i => i)
    ⟨fun _ => none, fun _ => ⟨List.replicate 9 995, 0⟩, fun _ => 0⟩ 7 1000).1
    (by decide) (by decide) (by decide) (by decide) (by decide)
  exact ⟨h.1, h.2.1⟩

/-! ## SlidingWindow (src/storage/memory.rs lines 26-72)

`Instant` is modelled in nanoseconds as `Nat`, so that the 1 ms coalescing
tolerance of `increment` and the seconds-based window cutoff coexist. -/

/-- One millisecond in nanosecond ticks. -/
def oneMs : Nat := 1000000

/-- One second in nanosecond ticks. -/
def oneSec : Nat := 1000000000

/-- `SlidingWindow`: deque of (timestamp, count) pairs plus window width in
seconds. -/
structure SlidingWindow where
  counts : List (Nat × Nat)
  window_secs : Nat
deriving DecidableEq

/-- `SlidingWindow::new`. -/
def SlidingWindow.new (w : Nat) : SlidingWindow := ⟨[], w⟩

/-- The deque update of `SlidingWindow::increment` (lines 40-50): if the new
instant is within 1 ms of the back entry, bump that entry's count, else push
a fresh `(now, 1)` pair at the back. -/
def pushIncr (l : List (Nat × Nat)) (now : Nat) : List (Nat × Nat) :=
  match l with
  | [] => [(now, 1)]
  | (t, c) :: rest =>
    match rest with
    | [] => if now - t < oneMs then [(t, c + 1)] else [(t, c), (now, 1)]
    | _ :: _ => (t, c) :: pushIncr rest now

/-- `SlidingWindow::increment` at instant `now`. -/
def SlidingWindow.increment (w : SlidingWindow) (now : Nat) : SlidingWindow :=
  { w with counts := pushIncr w.counts now }

/-- `SlidingWindow::count` (lines 52-60): sum of the counts of entries with
timestamp at or after `now - window`. -/
def SlidingWindow.count (w : SlidingWindow) (now : Nat) : Nat :=
  ((w.counts.filter (fun p => decide (now - w.window_secs * oneSec ≤ p.1))).map
    Prod.snd).sum

/-- `SlidingWindow::cleanup` (lines 62-71): pop front entries older than the
window cutoff. -/
def SlidingWindow.cleanup (w : SlidingWindow) (now : Nat) : SlidingWindow :=
  { w with counts :=
      w.counts.dropWhile (fun p => decide (p.1 < now - w.window_secs * oneSec)) }

/-- A window built by replaying a trace of increment instants on a fresh
window of width `wsecs` seconds. -/
def buildWindow (wsecs : Nat) (arrivals : List Nat) : SlidingWindow :=
  arrivals.foldl SlidingWindow.increment (SlidingWindow.new wsecs)

/-- Modelled from the spec (C7's tolerance clause): the timestamp each
increment is attributed to, where an increment arriving within 1 ms of the
previous entry coalesces into that entry's timestamp.  `prev` is the previous
entry's timestamp. -/
def attrTimes (prev : Option Nat) : List Nat → List Nat
  | [] => []
  | t :: ts =>
    match prev with
    | none => t :: attrTimes (some t) ts
    | some l => if t - l < oneMs then l :: attrTimes (some l) ts
                else t :: attrTimes (some t) ts

/-- Modelled from the spec (C7's words): the number of increments attributed
to the open-left interval `(now - width, now]`. -/
def specCountOpen (arrivals : List Nat) (now width : Nat) : Nat :=
  ((attrTimes none arrivals).filter
    (fun t => decide (now - width < t ∧ t ≤ now))).length

/-- C7 counterexample: a single increment at instant 0 on a 1-second window,
queried at `now = 1 s`.  No coalescing is involved (one increment), yet
`count` returns 1 — the code's cutoff `timestamp ≥ now - width` includes the
left endpoint — while the claim's open interval `(now - w, now]` contains 0
increments. -/
theorem c7_counterexample :
    (buildWindow 1 [0]).count oneSec = 1
    ∧ specCountOpen [0] oneSec (1 * oneSec) = 0
    ∧ (1 : Nat) ≠ 0 := by
  refine ⟨by decide, by decide, by decide⟩

/-- Attributed timestamp of a single arrival given the previous entry's
timestamp. -/
def attOf (prev : Option Nat) (a : Nat) : Nat :=
  match prev with
  | none => a
  | some t => if a - t < oneMs then t else a

/-- Timestamp of the back entry of the deque. -/
def lastTs (l : List (Nat × Nat)) : Option Nat := l.getLast?.map Prod.fst

/-- Multiset of attributed timestamps represented by a deque: each (t, c)
entry stands for c increments attributed to t. -/
def expand : List (Nat × Nat) → List Nat
  | [] => []
  | (t, c) :: rest => List.replicate c t ++ expand rest

theorem attrTimes_cons (prev : Option Nat) (a : Nat) (ts : List Nat) :
    attrTimes prev (a :: ts)
      = attOf prev a :: attrTimes (some (attOf prev a)) ts := by
  cases prev with
  | none => rfl
  | some t =>
    show (if a - t < oneMs then t :: attrTimes (some t) ts
          else a :: attrTimes (some a) ts) = _
    by_cases h : a - t < oneMs
    · simp only [attOf, if_pos h]
    · simp only [attOf, if_neg h]

theorem pushIncr_ne_nil (l : List (Nat × Nat)) (a : Nat) : pushIncr l a ≠ [] := by
  unfold pushIncr
  match l with
  | [] => simp
  | (t, c) :: rest =>
    match rest with
    | [] => dsimp only; split <;> simp
    | _ :: _ => simp

theorem lastTs_cons (x : Nat × Nat) (ys : List (Nat × Nat)) (h : ys ≠ []) :
    lastTs (x :: ys) = lastTs ys := by
  cases ys with
  | nil => exact absurd rfl h
  | cons y ys => unfold lastTs; rw [List.getLast?_cons_cons]

theorem pushIncr_expand (l : List (Nat × Nat)) (a : Nat) :
    expand (pushIncr l a) = expand l ++ [attOf (lastTs l) a]
    ∧ lastTs (pushIncr l a) = some (attOf (lastTs l) a) := by
  induction l with
  | nil => simp [pushIncr, expand, lastTs, attOf]
  | cons x rest ih =>
    obtain ⟨t, c⟩ := x
    cases rest with
    | nil =>
      unfold pushIncr
      dsimp only
      by_cases h : a - t < oneMs
      · rw [if_pos h]
        refine ⟨?_, ?_⟩
        · simp [expand, lastTs, attOf, h, List.replicate_succ']
        · simp [lastTs, attOf, h]
      · rw [if_neg h]
        refine ⟨?_, ?_⟩
        · simp [expand, lastTs, attOf, h]
        · simp [lastTs, attOf, h]
    | cons y ys =>
      have hne := pushIncr_ne_nil (y :: ys) a
      have hl : lastTs ((t, c) :: y :: ys) = lastTs (y :: ys) :=
        lastTs_cons _ _ (by simp)
      refine ⟨?_, ?_⟩
      · show List.replicate c t ++ expand (pushIncr (y :: ys) a) = _
        rw [ih.1, hl]
        simp [expand]
      · show lastTs ((t, c) :: pushIncr (y :: ys) a) = _
        rw [lastTs_cons _ _ hne, ih.2, hl]

theorem expand_foldl (arr : List Nat) (l : List (Nat × Nat)) :
    expand (arr.foldl pushIncr l) = expand l ++ attrTimes (lastTs l) arr := by
  induction arr generalizing l with
  | nil => simp [attrTimes]
  | cons a rest ih =>
    rw [List.foldl_cons, ih (pushIncr l a), (pushIncr_expand l a).1,
      (pushIncr_expand l a).2, attrTimes_cons, List.append_assoc]
    rfl

theorem buildWindow_counts (w : Nat) (arr : List Nat) :
    (buildWindow w arr).counts = arr.foldl pushIncr []
    ∧ (buildWindow w arr).window_secs = w := by
  have hgen : ∀ (a : List Nat) (l : List (Nat × Nat)),
      (a.foldl SlidingWindow.increment ⟨l, w⟩).counts = a.foldl pushIncr l
      ∧ (a.foldl SlidingWindow.increment ⟨l, w⟩).window_secs = w := by
    intro a
    induction a with
    | nil => intro l; exact ⟨rfl, rfl⟩
    | cons x rest ih => intro l; exact ih (pushIncr l x)
  exact hgen arr []

theorem filter_replicate_length (c t : Nat) (p : Nat → Bool) :
    ((List.replicate c t).filter p).length = if p t then c else 0 := by
  induction c with
  | zero => simp
  | succ n ih =>
    rw [List.replicate_succ, List.filter_cons]
    by_cases h : p t <;> simp [h, ih]

theorem sum_filter_expand (l : List (Nat × Nat)) (p : Nat → Bool) :
    ((l.filter (fun q => p q.1)).map Prod.snd).sum = ((expand l).filter p).length := by
  induction l with
  | nil => rfl
  | cons x rest ih =>
    obtain ⟨t, c⟩ := x
    rw [List.filter_cons]
    show _ = ((List.replicate c t ++ expand rest).filter p).length
    rw [List.filter_append, List.length_append, filter_replicate_length]
    by_cases h : p t <;> simp [h, ih]

/-- The code's `count` over a replayed trace equals the number of attributed
timestamps at or after the cutoff (closed left endpoint). -/
theorem count_buildWindow (w : Nat) (arr : List Nat) (now : Nat) :
    (buildWindow w arr).count now
      = ((attrTimes none arr).filter
          (fun t => decide (now - w * oneSec ≤ t))).length := by
  unfold SlidingWindow.count
  rw [(buildWindow_counts w arr).1, (buildWindow_counts w arr).2,
    sum_filter_expand (arr.foldl pushIncr [])
      (fun t => decide (now - w * oneSec ≤ t)), expand_foldl]
  rfl

theorem attrTimes_subset (arr : List Nat) :
    ∀ (prev : Option Nat), ∀ x ∈ attrTimes prev arr,
      x ∈ arr ∨ ∃ t, prev = some t ∧ x = t := by
  induction arr with
  | nil => intro prev x hx; simp [attrTimes] at hx
  | cons a ts ih =>
    intro prev x hx
    rw [attrTimes_cons] at hx
    rcases List.mem_cons.mp hx with hx | hx
    · cases prev with
      | none => exact Or.inl (hx ▸ List.mem_cons_self _ _)
      | some t =>
        unfold attOf at hx
        dsimp only at hx
        by_cases h : a - t < oneMs
        · rw [if_pos h] at hx
          exact Or.inr ⟨t, rfl, hx⟩
        · rw [if_neg h] at hx
          exact Or.inl (hx ▸ List.mem_cons_self _ _)
    · rcases ih (some (attOf prev a)) x hx with h1 | ⟨t, ht, hxt⟩
      · exact Or.inl (List.mem_cons_of_mem _ h1)
      · cases prev with
        | none =>
          simp only [attOf, Option.some.injEq] at ht
          exact Or.inl (by rw [hxt, ← ht]; exact List.mem_cons_self _ _)
        | some t0 =>
          simp only [attOf, Option.some.injEq] at ht
          by_cases h : a - t0 < oneMs
          · rw [if_pos h] at ht
            exact Or.inr ⟨t0, rfl, by rw [hxt, ht]⟩
          · rw [if_neg h] at ht
            exact Or.inl (by rw [hxt, ht]; exact List.mem_cons_self _ _)

theorem pushIncr_fst_mem (l : List (Nat × Nat)) (a : Nat) :
    ∀ p ∈ pushIncr l a, p.1 ∈ l.map Prod.fst ∨ p.1 = a := by
  induction l with
  | nil => intro p hp; simp [pushIncr] at hp; simp [hp]
  | cons x rest ih =>
    obtain ⟨t, c⟩ := x
    cases rest with
    | nil =>
      intro p hp
      unfold pushIncr at hp
      dsimp only at hp
      by_cases h : a - t < oneMs
      · rw [if_pos h] at hp
        simp at hp
        simp [hp]
      · rw [if_neg h] at hp
        simp at hp
        rcases hp with hp | hp <;> simp [hp]
    | cons y ys =>
      intro p hp
      rcases List.mem_cons.mp hp with hp | hp
      · simp [hp]
      · rcases ih p hp with h1 | h1
        · exact Or.inl (by simp at h1 ⊢; tauto)
        · exact Or.inr h1

theorem pushIncr_sorted (l : List (Nat × Nat)) (a : Nat)
    (hs : List.Pairwise (· < ·) (l.map Prod.fst))
    (hle : ∀ p ∈ l, p.1 ≤ a) :
    List.Pairwise (· < ·) ((pushIncr l a).map Prod.fst)
    ∧ ∀ p ∈ pushIncr l a, p.1 ≤ a := by
  induction l with
  | nil => simp [pushIncr]
  | cons x rest ih =>
    obtain ⟨t, c⟩ := x
    have hta : t ≤ a := hle (t, c) (by simp)
    cases rest with
    | nil =>
      unfold pushIncr
      dsimp only
      by_cases h : a - t < oneMs
      · rw [if_pos h]
        exact ⟨by simp, by simp [hta]⟩
      · rw [if_neg h]
        have : t < a := by
          have : oneMs ≤ a - t := by omega
          have hpos : 0 < oneMs := by decide
          omega
        exact ⟨by simp [this], by simp [hta]⟩
    | cons y ys =>
      have hcons := List.pairwise_cons.mp hs
      have hih := ih hcons.2 (fun p hp => hle p (List.mem_cons_of_mem _ hp))
      have hya : y.1 ≤ a := hle y (by simp)
      have hty : t < y.1 := hcons.1 y.1 (by simp)
      refine ⟨?_, ?_⟩
      · show List.Pairwise (· < ·) (t :: (pushIncr (y :: ys) a).map Prod.fst)
        rw [List.pairwise_cons]
        refine ⟨?_, hih.1⟩
        intro u hu
        rcases List.mem_map.mp hu with ⟨p, hp, hpu⟩
        rw [← hpu]
        rcases pushIncr_fst_mem (y :: ys) a p hp with h1 | h1
        · exact hcons.1 p.1 h1
        · rw [h1]; omega
      · intro p hp
        rcases List.mem_cons.mp hp with hp | hp
        · rw [hp]; exact hta
        · exact hih.2 p hp

theorem foldl_pushIncr_sorted (arr : List Nat) (l : List (Nat × Nat))
    (hchain : List.Chain' (· ≤ ·) arr)
    (hle : ∀ p ∈ l, ∀ b ∈ arr.head?, p.1 ≤ b)
    (hs : List.Pairwise (· < ·) (l.map Prod.fst)) :
    List.Pairwise (· < ·) ((arr.foldl pushIncr l).map Prod.fst) := by
  induction arr generalizing l with
  | nil => exact hs
  | cons a rest ih =>
    have hle_a : ∀ p ∈ l, p.1 ≤ a := by
      intro p hp
      exact hle p hp a rfl
    have hpi := pushIncr_sorted l a hs hle_a
    refine ih (pushIncr l a) hchain.tail ?_ hpi.1
    intro p hp b hb
    have hpa := hpi.2 p hp
    cases rest with
    | nil => simp at hb
    | cons r rs =>
      have hbr : r = b := by simpa using hb
      have har : a ≤ r := (List.chain'_cons.mp hchain).1
      omega

theorem dropWhile_lt_eq_filter (l : List (Nat × Nat)) (c : Nat)
    (hs : List.Pairwise (· < ·) (l.map Prod.fst)) :
    l.dropWhile (fun p => decide (p.1 < c)) = l.filter (fun p => decide (c ≤ p.1)) := by
  induction l with
  | nil => rfl
  | cons x rest ih =>
    have hcons := List.pairwise_cons.mp hs
    rw [List.dropWhile_cons, List.filter_cons]
    by_cases h : x.1 < c
    · rw [if_pos (by simpa using h), ih hcons.2,
        if_neg (by simp only [decide_eq_true_eq]; omega)]
    · rw [if_neg (by simpa using h),
        if_pos (by simp only [decide_eq_true_eq]; omega)]
      congr 1
      symm
      rw [List.filter_eq_self]
      intro q hq
      have hlt : x.1 < q.1 := hcons.1 q.1 (List.mem_map.mpr ⟨q, hq, rfl⟩)
      simp only [decide_eq_true_eq]
      omega

/-- C7 (amended): replaying any time-ordered trace of increments, all at or
before the query instant `now`, on a fresh `SlidingWindow` of width `w`
seconds: (i) the (timestamp, count) pairs are strictly ordered by timestamp;
(ii) `count(now)` returns the number of increments whose coalesced timestamp
(per the 1 ms tolerance) lies in the CLOSED interval `[now - w, now]`;
(iii) `cleanup` removes exactly the entries with timestamp older than
`now - w`, and leaves `count` unchanged. -/
theorem c7_sliding_window (w : Nat) (arr : List Nat) (now : Nat)
    (hchain : List.Chain' (· ≤ ·) arr) (hbound : ∀ t ∈ arr, t ≤ now) :
    List.Pairwise (· < ·) ((buildWindow w arr).counts.map Prod.fst)
    ∧ (buildWindow w arr).count now
        = ((attrTimes none arr).filter
            (fun t => decide (now - w * oneSec ≤ t ∧ t ≤ now))).length
    ∧ ((buildWindow w arr).cleanup now).counts
        = (buildWindow w arr).counts.filter
            (fun p => decide (now - w * oneSec ≤ p.1))
    ∧ ((buildWindow w arr).cleanup now).count now = (buildWindow w arr).count now := by
  have hsorted : List.Pairwise (· < ·) ((buildWindow w arr).counts.map Prod.fst) := by
    rw [(buildWindow_counts w arr).1]
    exact foldl_pushIncr_sorted arr [] hchain (by simp) (by simp)
  have hcut : ((buildWindow w arr).cleanup now).counts
      = (buildWindow w arr).counts.filter
          (fun p => decide (now - w * oneSec ≤ p.1)) := by
    unfold SlidingWindow.cleanup
    rw [(buildWindow_counts w arr).2]
    exact dropWhile_lt_eq_filter _ _ hsorted
  refine ⟨hsorted, ?_, hcut, ?_⟩
  · rw [count_buildWindow]
    have hfc : (attrTimes none arr).filter (fun t => decide (now - w * oneSec ≤ t))
        = (attrTimes none arr).filter
            (fun t => decide (now - w * oneSec ≤ t ∧ t ≤ now)) := by
      apply List.filter_congr
      intro x hx
      have hxa : x ∈ arr := by
        rcases attrTimes_subset arr none x hx with h1 | ⟨t, ht, _⟩
        · exact h1
        · exact absurd ht (by simp)
      have hxn : x ≤ now := hbound x hxa
      simp [hxn]
    rw [hfc]
  · unfold SlidingWindow.count
    have hws : ((buildWindow w arr).cleanup now).window_secs
        = (buildWindow w arr).window_secs := rfl
    rw [hws, hcut, (buildWindow_counts w arr).2]
    have hff : ((buildWindow w arr).counts.filter
          (fun p => decide (now - w * oneSec ≤ p.1))).filter
            (fun p => decide (now - w * oneSec ≤ p.1))
        = (buildWindow w arr).counts.filter
            (fun p => decide (now - w * oneSec ≤ p.1)) := by
      rw [List.filter_eq_self]
      intro a ha
      exact (List.mem_filter.mp ha).2
    rw [hff]

/-- Witness for C7 at a concrete trace: increments at 0 ns, 0.5 ms (coalesces
into the first entry) and 1 s, window 1 s, queried at 1 s. -/
theorem c7_sliding_window_witness :
    (buildWindow 1 [0, 500000, oneSec]).count oneSec
      = ((attrTimes none [0, 500000, oneSec]).filter
          (fun t => decide (oneSec - 1 * oneSec ≤ t ∧ t ≤ oneSec))).length := by
  exact (c7_sliding_window 1 [0, 500000, oneSec] oneSec
    (by simp [List.chain'_cons, List.chain'_singleton, oneSec])
    (by intro t ht; simp [oneSec] at ht ⊢; rcases ht with h | h | h <;> omega)).2.1

/-! ## Proof-of-work verification (src/protection/challenge.rs lines 199-218)

`Sha256::digest` comes from the external `sha2` crate; it is abstracted as a
function from the input string to its digest bytes.  The byte loop of
`verify_solution` is embedded concretely. -/

/-- `u8::leading_zeros` of a byte value: position class of the highest set
bit (8 for 0). -/
def u8_leading_zeros (b : Nat) : Nat :=
  if 128 ≤ b then 0 else if 64 ≤ b then 1 else if 32 ≤ b then 2
  else if 16 ≤ b then 3 else if 8 ≤ b then 4 else if 4 ≤ b then 5
  else if 2 ≤ b then 6 else if 1 ≤ b then 7 else 8

/-- The counting loop of `verify_solution` (lines 204-213): a zero byte
contributes 8, the first non-zero byte contributes its `leading_zeros` and
the loop breaks. -/
def count_leading_zero_bits : List Nat → Nat
  | [] => 0
  | b :: rest => if b = 0 then 8 + count_leading_zero_bits rest
                 else u8_leading_zeros b

/-- `ChallengeSystem::verify_solution` over an abstract SHA-256: recompute
the digest of `challenge ++ ":" ++ nonce` and require at least 16 leading
zero bits. -/
def verify_solution (sha : Str → List Nat) (challenge nonce : Str) : Bool :=
  decide (16 ≤ count_leading_zero_bits (sha (challenge ++ ':' :: nonce)))

/-- The 8 bits of a byte, most significant bit first. -/
def byteBits (b : Nat) : List Bool := (List.range 8).map (fun i => b.testBit (7 - i))

/-- The bit string of a byte buffer, in order. -/
def bitsOf (bs : List Nat) : List Bool := (bs.map byteBits).flatten

/-- Leading zero bits of a digest, defined at the bit level: the length of
the maximal all-zero prefix of its bit string. -/
def leadingZeroBits (bs : List Nat) : Nat :=
  ((bitsOf bs).takeWhile (fun b => !b)).length

theorem takeWhile_append_all {α : Type} {p : α → Bool} (xs ys : List α)
    (h : ∀ x ∈ xs, p x = true) :
    (xs ++ ys).takeWhile p = xs ++ ys.takeWhile p := by
  induction xs with
  | nil => rfl
  | cons x xs ih =>
    have hx : p x = true := h x (by simp)
    rw [List.cons_append, List.takeWhile_cons, if_pos hx,
      ih (fun a ha => h a (by simp [ha])), List.cons_append]

theorem takeWhile_append_stops {α : Type} {p : α → Bool} (xs ys : List α)
    (h : (xs.takeWhile p).length < xs.length) :
    (xs ++ ys).takeWhile p = xs.takeWhile p := by
  induction xs with
  | nil => simp at h
  | cons x xs ih =>
    by_cases hx : p x = true
    · rw [List.takeWhile_cons, if_pos hx] at h
      simp only [List.length_cons] at h
      rw [List.cons_append, List.takeWhile_cons, if_pos hx,
        List.takeWhile_cons, if_pos hx, ih (by omega)]
    · rw [List.cons_append, List.takeWhile_cons, if_neg hx,
        List.takeWhile_cons, if_neg hx]

theorem byteBits_length (b : Nat) : (byteBits b).length = 8 := by
  simp [byteBits]

theorem byteBits_zero : byteBits 0 = List.replicate 8 false := by decide

set_option maxRecDepth 10000 in
theorem byteBits_nonzero_facts :
    ∀ b < 256, b ≠ 0 →
      ((byteBits b).takeWhile (fun x => !x)).length = u8_leading_zeros b
      ∧ ((byteBits b).takeWhile (fun x => !x)).length < 8 := by
  decide

theorem count_leading_zero_bits_eq (bs : List Nat) (hb : ∀ b ∈ bs, b < 256) :
    count_leading_zero_bits bs = leadingZeroBits bs := by
  induction bs with
  | nil => rfl
  | cons b rest ih =>
    by_cases h : b = 0
    · subst h
      show 8 + count_leading_zero_bits rest = _
      unfold leadingZeroBits bitsOf
      rw [List.map_cons, List.flatten_cons, byteBits_zero,
        takeWhile_append_all _ _
          (by intro x hx; rw [List.eq_of_mem_replicate hx]; rfl),
        List.length_append, List.length_replicate,
        ih (fun x hx => hb x (by simp [hx]))]
      rfl
    · have hfacts := byteBits_nonzero_facts b (hb b (by simp)) h
      have hc : count_leading_zero_bits (b :: rest) = u8_leading_zeros b := by
        unfold count_leading_zero_bits
        rw [if_neg h]
      rw [hc]
      unfold leadingZeroBits bitsOf
      rw [List.map_cons, List.flatten_cons,
        takeWhile_append_stops _ _ (by rw [byteBits_length]; exact hfacts.2),
        hfacts.1]

/-- C4: for every challenge and nonce, `verify_solution` returns true iff
the SHA-256 digest of `challenge ++ ":" ++ nonce` has at least 16 leading
zero bits, where the bit-level count is the length of the all-zero prefix of
the digest's bit string (each leading zero byte contributing 8 bits and the
first non-zero byte its leading-zero bits). -/
theorem c4_verify_solution (sha : Str → List Nat) (challenge nonce : Str)
    (hb : ∀ b ∈ sha (challenge ++ ':' :: nonce), b < 256) :
    verify_solution sha challenge nonce = true
      ↔ 16 ≤ leadingZeroBits (sha (challenge ++ ':' :: nonce)) := by
  unfold verify_solution
  rw [decide_eq_true_iff, count_leading_zero_bits_eq _ hb]

set_option maxRecDepth 10000 in
/-- Witness for C4 with the all-zero digest function: 256 leading zero bits,
so the solution verifies. -/
theorem c4_verify_solution_witness :
    verify_solution (fun _ => List.replicate 32 0) ['a'] ['b'] = true := by
  refine (c4_verify_solution (fun _ => List.replicate 32 0) ['a'] ['b'] ?_).mpr ?_
  · intro b hbm
    have := List.eq_of_mem_replicate hbm
    omega
  · decide

/-! ## IP reputation manager (src/protection/ip_reputation.rs)

Scores are `f64` in the source, modelled as rationals; times are seconds as
`Nat`.  The `entries` and `tor_exits` DashMaps become functions. -/

/-- `IpReputationConfig` fields used by the manager. -/
structure IpReputationConfig where
  enabled : Bool
  tor_detection : Bool
  tor_score : ℚ
  decay_interval_secs : Nat
  decay_percent : ℚ
  block_threshold : ℚ
  high_reputation_score : ℚ

/-- `ReputationCategory` (lines 16-22). -/
inductive ReputationCategory
  | TorExit
  | KnownProxy
  | Scanner
  | BruteForce
  | DDoS
deriving DecidableEq

/-- `IpEntry` (lines 24-36). -/
structure IpEntry where
  score : ℚ
  total_requests : Nat
  blocked_count : Nat
  challenged_count : Nat
  passed_count : Nat
  first_seen : Nat
  last_seen : Nat
  last_decay : Nat
  categories : List ReputationCategory
  ban_count : Nat
deriving DecidableEq

/-- `IpEntry::new` at instant `now`. -/
def IpEntry.new (now : Nat) : IpEntry := ⟨0, 0, 0, 0, 0, now, now, now, [], 0⟩

/-- State of `IpReputationManager`: per-IP entries and the Tor exit set. -/
structure IpRepState where
  entries : Ip → Option IpEntry
  tor_exits : Ip → Bool

namespace IpReputation

/-- `IpReputationManager::apply_decay` (lines 252-262): when at least one
decay interval elapsed since `last_decay`, multiply the score by
`(1 - percent/100)^periods` and stamp `last_decay := now`. -/
def apply_decay (cfg : IpReputationConfig) (e : IpEntry) (now : Nat) : IpEntry :=
  if cfg.decay_interval_secs ≤ now - e.last_decay then
    { e with
        score := e.score * (1 - cfg.decay_percent / 100)
          ^ ((now - e.last_decay) / cfg.decay_interval_secs),
        last_decay := now }
  else e

/-- `IpReputationManager::check` (lines 88-136): reads the Tor set and the
entry, applies decay to a local copy of the score only, and returns
`(score contribution, hard block?)` together with the (unchanged) state. -/
def check (cfg : IpReputationConfig) (st : IpRepState) (ip : Ip) (now : Nat) :
    (ℚ × Bool) × IpRepState :=
  if !cfg.enabled then ((0, false), st)
  else
    let score1 : ℚ := if cfg.tor_detection && st.tor_exits ip then 0 + cfg.tor_score else 0
    match st.entries ip with
    | some entry =>
      let elapsed := now - entry.last_decay
      let rep_score :=
        if cfg.decay_interval_secs < elapsed then
          entry.score * (1 - cfg.decay_percent / 100)
            ^ (elapsed / cfg.decay_interval_secs)
        else entry.score
      if cfg.block_threshold ≤ rep_score then ((rep_score, true), st)
      else
        let score2 :=
          if (50 : ℚ) ≤ rep_score then score1 + cfg.high_reputation_score
          else if (25 : ℚ) ≤ rep_score then score1 + cfg.high_reputation_score * (1 / 2)
          else score1
        let score3 := if entry.categories.contains ReputationCategory.KnownProxy
          then score2 + 10 else score2
        let score4 := if entry.categories.contains ReputationCategory.Scanner
          then score3 + 15 else score3
        ((score4, false), st)
    | none => ((score1, false), st)

/-- `IpReputationManager::record_block` (lines 139-149): create the entry if
absent, apply decay, then bump counters, add 5 to the score capped at 100,
and stamp `last_seen`. -/
def record_block (cfg : IpReputationConfig) (st : IpRepState) (ip : Ip)
    (now : Nat) : IpRepState :=
  if !cfg.enabled then st
  else
    let e1 := apply_decay cfg ((st.entries ip).getD (IpEntry.new now)) now
    let e2 := { e1 with
        total_requests := e1.total_requests + 1,
        blocked_count := e1.blocked_count + 1,
        score := min (e1.score + 5) 100,
        last_seen := now }
    { st with entries := fun j => if j = ip then some e2 else st.entries j }

/-- `IpReputationManager::record_challenge` (lines 152-162): like
`record_block` with +2. -/
def record_challenge (cfg : IpReputationConfig) (st : IpRepState) (ip : Ip)
    (now : Nat) : IpRepState :=
  if !cfg.enabled then st
  else
    let e1 := apply_decay cfg ((st.entries ip).getD (IpEntry.new now)) now
    let e2 := { e1 with
        total_requests := e1.total_requests + 1,
        challenged_count := e1.challenged_count + 1,
        score := min (e1.score + 2) 100,
        last_seen := now }
    { st with entries := fun j => if j = ip then some e2 else st.entries j }

/-- `IpReputationManager::record_pass` (lines 165-177): updates only
pre-existing entries, applying decay then subtracting 0.5 floored at 0. -/
def record_pass (cfg : IpReputationConfig) (st : IpRepState) (ip : Ip)
    (now : Nat) : IpRepState :=
  if !cfg.enabled then st
  else
    match st.entries ip with
    | none => st
    | some e0 =>
      let e1 := apply_decay cfg e0 now
      let e2 := { e1 with
          total_requests := e1.total_requests + 1,
          passed_count := e1.passed_count + 1,
          score := max (e1.score - 1 / 2) 0,
          last_seen := now }
      { st with entries := fun j => if j = ip then some e2 else st.entries j }

end IpReputation

/-- C10: `check` never modifies the reputation state — the returned state is
the input state, so no entry is created for an unseen IP and a stored entry's
`score` and `last_decay` are identical before and after the call (the decay
in `check` is computed on a local copy only); decayed scores are persisted by
`record_block`, `record_challenge` and `record_pass`, each of which, when a
decay interval has elapsed, stores the decayed-and-adjusted score and stamps
`last_decay := now`. -/
theorem c10_check_is_pure (cfg : IpReputationConfig) (st : IpRepState)
    (ip : Ip) (now : Nat) :
    (IpReputation.check cfg st ip now).2 = st
    ∧ (st.entries ip = none →
        (IpReputation.check cfg st ip now).2.entries ip = none)
    ∧ (∀ e, st.entries ip = some e →
        ((IpReputation.check cfg st ip now).2.entries ip).map
            (fun e' => (e'.score, e'.last_decay)) = some (e.score, e.last_decay))
    ∧ (cfg.enabled = true → ∀ e, st.entries ip = some e →
        cfg.decay_interval_secs ≤ now - e.last_decay →
        ((IpReputation.record_block cfg st ip now).entries ip).map
            (fun e' => (e'.score, e'.last_decay))
          = some (min (e.score * (1 - cfg.decay_percent / 100)
                ^ ((now - e.last_decay) / cfg.decay_interval_secs) + 5) 100, now)
        ∧ ((IpReputation.record_challenge cfg st ip now).entries ip).map
            (fun e' => (e'.score, e'.last_decay))
          = some (min (e.score * (1 - cfg.decay_percent / 100)
                ^ ((now - e.last_decay) / cfg.decay_interval_secs) + 2) 100, now)
        ∧ ((IpReputation.record_pass cfg st ip now).entries ip).map
            (fun e' => (e'.score, e'.last_decay))
          = some (max (e.score * (1 - cfg.decay_percent / 100)
                ^ ((now - e.last_decay) / cfg.decay_interval_secs) - 1 / 2) 0, now)) := by
  have h2 : (IpReputation.check cfg st ip now).2 = st := by
    unfold IpReputation.check
    by_cases hEn : (!cfg.enabled) = true
    · rw [if_pos hEn]
    · rw [if_neg hEn]
      dsimp only
      cases hE : st.entries ip with
      | none => rfl
      | some entry =>
        dsimp only
        by_cases hB : cfg.block_threshold ≤
            (if cfg.decay_interval_secs < now - entry.last_decay then
              entry.score * (1 - cfg.decay_percent / 100)
                ^ ((now - entry.last_decay) / cfg.decay_interval_secs)
            else entry.score)
        · rw [if_pos hB]
        · rw [if_neg hB]
  refine ⟨h2, fun h => by rw [h2, h], fun e he => by rw [h2, he]; rfl, ?_⟩
  intro hen e he hdecay
  have hne : (!cfg.enabled) = false := by rw [hen]; rfl
  refine ⟨?_, ?_, ?_⟩
  · unfold IpReputation.record_block
    rw [hne]
    simp only [Bool.false_eq_true, if_false]
    simp [he, IpReputation.apply_decay, hdecay]
  · unfold IpReputation.record_challenge
    rw [hne]
    simp only [Bool.false_eq_true, if_false]
    simp [he, IpReputation.apply_decay, hdecay]
  · unfold IpReputation.record_pass
    rw [hne]
    simp only [Bool.false_eq_true, if_false]
    rw [he]
    simp [IpReputation.apply_decay, hdecay]

/-- Witness for C10 at a concrete config, state and entry with decay due. -/
theorem c10_check_is_pure_witness :
    (IpReputation.check ⟨true, false, 25, 60, 50, 90, 20⟩
      ⟨fun _ => some ⟨40, 3, 1, 1, 1, 0, 0, 0, [], 0⟩, fun _ => false⟩ 5 120).2
      = ⟨fun _ => some ⟨40, 3, 1, 1, 1, 0, 0, 0, [], 0⟩, fun _ => false⟩
    ∧ ((IpReputation.record_block ⟨true, false, 25, 60, 50, 90, 20⟩
        ⟨fun _ => some ⟨40, 3, 1, 1, 1, 0, 0, 0, [], 0⟩, fun _ => false⟩ 5 120).entries 5).map
          (fun e' => (e'.score, e'.last_decay))
        = some (min ((40 : ℚ) * (1 - 50 / 100) ^ (120 / 60) + 5) 100, 120) := by
  have h := c10_check_is_pure ⟨true, false, 25, 60, 50, 90, 20⟩
    ⟨fun _ => some ⟨40, 3, 1, 1, 1, 0, 0, 0, [], 0⟩, fun _ => false⟩ 5 120
  exact ⟨h.1, (h.2.2.2 rfl _ rfl (by norm_num)).1⟩

/-! ## JA3 fingerprint extractor (src/proxy/tls.rs)

Byte buffers are lists of naturals `< 256`; `u32` arithmetic is `Nat` with
explicit `% 2^32`.  `md5_hex` is the repository's hand-written MD5
(lines 253-340), translated wholesale; the loops of the `ClientHello` parser
are written with explicit fuel (bounded by the remaining byte range) so that
concrete evaluation reduces in the kernel. -/

/-- The u32 modulus `2^32`. -/
def u32mod : Nat := 4294967296

/-- Bitwise complement on u32 values. -/
def not32 (x : Nat) : Nat := x ^^^ (u32mod - 1)

/-- `u32::rotate_left`. -/
def rotl32 (x r : Nat) : Nat := ((x <<< r) % u32mod) ||| (x >>> (32 - r))

/-- Per-round shift table `S` of `md5_hex` (tls.rs lines 255-260). -/
def mdS : List Nat :=
  [7, 12, 17, 22, 7, 12, 17, 22, 7, 12, 17, 22, 7, 12, 17, 22,
   5, 9, 14, 20, 5, 9, 14, 20, 5, 9, 14, 20, 5, 9, 14, 20,
   4, 11, 16, 23, 4, 11, 16, 23, 4, 11, 16, 23, 4, 11, 16, 23,
   6, 10, 15, 21, 6, 10, 15, 21, 6, 10, 15, 21, 6, 10, 15, 21]

/-- Round constant table `K` of `md5_hex` (tls.rs lines 262-279). -/
def mdK : List Nat :=
  [0xd76aa478, 0xe8c7b756, 0x242070db, 0xc1bdceee,
   0xf57c0faf, 0x4787c62a, 0xa8304613, 0xfd469501,
   0x698098d8, 0x8b44f7af, 0xffff5bb1, 0x895cd7be,
   0x6b901122, 0xfd987193, 0xa679438e, 0x49b40821,
   0xf61e2562, 0xc040b340, 0x265e5a51, 0xe9b6c7aa,
   0xd62f105d, 0x02441453, 0xd8a1e681, 0xe7d3fbc8,
   0x21e1cde6, 0xc33707d6, 0xf4d50d87, 0x455a14ed,
   0xa9e3e905, 0xfcefa3f8, 0x676f02d9, 0x8d2a4c8a,
   0xfffa3942, 0x8771f681, 0x6d9d6122, 0xfde5380c,
   0xa4beea44, 0x4bdecfa9, 0xf6bb4b60, 0xbebfbc70,
   0x289b7ec6, 0xeaa127fa, 0xd4ef3085, 0x04881d05,
   0xd9d4d039, 0xe6db99e5, 0x1fa27cf8, 0xc4ac5665,
   0xf4292244, 0x432aff97, 0xab9423a7, 0xfc93a039,
   0x655b59c3, 0x8f0ccc92, 0xffeff47d, 0x85845dd1,
   0x6fa87e4f, 0xfe2ce6e0, 0xa3014314, 0x4e0811a1,
   0xf7537e82, 0xbd3af235, 0x2ad7d2bb, 0xeb86d391]

/-- One round `i` of the 64-round loop (tls.rs lines 307-323), over the
16-word message schedule `m`. -/
def md5round (m : List Nat) (st : Nat × Nat × Nat × Nat) (i : Nat) :
    Nat × Nat × Nat × Nat :=
  let a := st.1
  let b := st.2.1
  let c := st.2.2.1
  let d := st.2.2.2
  let fg : Nat × Nat :=
    if i < 16 then ((b &&& c) ||| (not32 b &&& d), i)
    else if i < 32 then ((d &&& b) ||| (not32 d &&& c), (5 * i + 1) % 16)
    else if i < 48 then (b ^^^ c ^^^ d, (3 * i + 5) % 16)
    else (c ^^^ (b ||| not32 d), (7 * i) % 16)
  let f := (fg.1 + a + mdK.getD i 0 + m.getD fg.2 0) % u32mod
  (d, (b + rotl32 f (mdS.getD i 0)) % u32mod, b, c)

/-- Process one padded 64-byte chunk (tls.rs lines 294-329): little-endian
message schedule, 64 rounds, wrapping state addition. -/
def md5chunk (st : Nat × Nat × Nat × Nat) (chunk : List Nat) :
    Nat × Nat × Nat × Nat :=
  let m := (List.range 16).map (fun i =>
    chunk.getD (4 * i) 0 + chunk.getD (4 * i + 1) 0 * 256
      + chunk.getD (4 * i + 2) 0 * 65536 + chunk.getD (4 * i + 3) 0 * 16777216)
  let r := (List.range 64).foldl (md5round m) st
  ((st.1 + r.1) % u32mod, (st.2.1 + r.2.1) % u32mod,
   (st.2.2.1 + r.2.2.1) % u32mod, (st.2.2.2 + r.2.2.2) % u32mod)

/-- Fold over consecutive 64-byte chunks; the fuel is the message length,
which bounds the number of chunks. -/
def md5chunksAux : Nat → (Nat × Nat × Nat × Nat) → List Nat →
    Nat × Nat × Nat × Nat
  | 0, st, _ => st
  | fuel + 1, st, msg =>
    if msg = [] then st
    else md5chunksAux fuel (md5chunk st (msg.take 64)) (msg.drop 64)

/-- Little-endian bytes of a u64 value (`to_le_bytes`). -/
def leBytes8 (n : Nat) : List Nat := (List.range 8).map (fun i => (n >>> (8 * i)) % 256)

/-- Little-endian bytes of a u32 word. -/
def le4 (w : Nat) : List Nat :=
  [w % 256, (w >>> 8) % 256, (w >>> 16) % 256, (w >>> 24) % 256]

/-- MD5 padding (tls.rs lines 286-292): append 0x80, zero-fill to 56 mod 64,
append the original bit length as little-endian u64. -/
def md5pad (data : List Nat) : List Nat :=
  data ++ [128] ++ List.replicate ((56 + 64 - (data.length + 1) % 64) % 64) 0
    ++ leBytes8 ((8 * data.length) % 2 ^ 64)

/-- Lowercase hex digit character for a nibble value. -/
def hexDigitChar (n : Nat) : Char :=
  if n < 10 then Char.ofNat (48 + n) else Char.ofNat (87 + n)

/-- Lowercase two-digit hex encoding of a byte list (`{:02x}` per byte,
tls.rs lines 342-344). -/
def hexEncode (bytes : List Nat) : Str :=
  (bytes.map (fun b => [hexDigitChar (b / 16), hexDigitChar (b % 16)])).flatten

/-- `md5_hex` (tls.rs lines 253-340): the repository's hand-written MD5,
returning lowercase hex. -/
def md5_hex (data : List Nat) : Str :=
  let msg := md5pad data
  let st := md5chunksAux msg.length
    (0x67452301, 0xefcdab89, 0x98badcfe, 0x10325476) msg
  hexEncode (le4 st.1 ++ le4 st.2.1 ++ le4 st.2.2.1 ++ le4 st.2.2.2)

/-- `ClientHelloInfo` (tls.rs lines 12-18). -/
structure ClientHelloInfo where
  tls_version : Nat
  cipher_suites : List Nat
  extensions : List Nat
  elliptic_curves : List Nat
  ec_point_formats : List Nat
deriving DecidableEq

/-- Big-endian u16 read at `pos` (`read_u16`'s value). -/
def be16 (d : List Nat) (pos : Nat) : Nat := d.getD pos 0 * 256 + d.getD (pos + 1) 0

/-- The cipher-suite reading loop (tls.rs lines 401-405): `read_u16` until
`cs_end`, each read bounds-checked against the buffer.  Fuel bounds the
iteration count by the remaining range. -/
def readCipherListAux : Nat → List Nat → Nat → Nat → Option (List Nat × Nat)
  | 0, _, pos, _ => some ([], pos)
  | fuel + 1, d, pos, endP =>
    if pos < endP then
      if pos + 2 ≤ d.length then
        match readCipherListAux fuel d (pos + 2) endP with
        | some (vs, pe) => some (be16 d pos :: vs, pe)
        | none => none
      else none
    else some ([], pos)

/-- The supported-groups inner loop (tls.rs lines 441-443). -/
def readGroupListAux : Nat → List Nat → Nat → Nat → List Nat
  | 0, _, _, _ => []
  | fuel + 1, d, epos, listEnd =>
    if epos + 2 ≤ listEnd ∧ epos + 2 ≤ d.length then
      be16 d epos :: readGroupListAux fuel d (epos + 2) listEnd
    else []

/-- The EC point-formats inner loop (tls.rs lines 451-453). -/
def readFmtListAux : Nat → List Nat → Nat → Nat → List Nat
  | 0, _, _, _ => []
  | fuel + 1, d, epos, fmtEnd =>
    if epos < fmtEnd ∧ epos < d.length then
      d.getD epos 0 :: readFmtListAux fuel d (epos + 1) fmtEnd
    else []

/-- Handler for extension type 0x000a (tls.rs lines 436-445): read the list
length then the group values. -/
def parseGroupsExt (d : List Nat) (dataStart newPos : Nat) : Option (List Nat) :=
  if dataStart + 2 ≤ newPos then
    if dataStart + 2 ≤ d.length then
      some (readGroupListAux (be16 d dataStart + 2) d (dataStart + 2)
        (dataStart + 2 + be16 d dataStart))
    else none
  else some []

/-- Handler for extension type 0x000b (tls.rs lines 446-455). -/
def parseFmtsExt (d : List Nat) (dataStart newPos : Nat) : Option (List Nat) :=
  if dataStart + 1 ≤ newPos then
    if dataStart < d.length then
      some (readFmtListAux (d.getD dataStart 0 + 1) d (dataStart + 1)
        (dataStart + 1 + d.getD dataStart 0))
    else none
  else some []

/-- The extension-walking loop (tls.rs lines 424-458): read type and length,
bounds-check the body against `ext_end`, collect the type, run the group /
point-format sub-parsers, advance past the body. -/
def parseExtsAux : Nat → List Nat → Nat → Nat →
    Option (List Nat × List Nat × List Nat)
  | 0, _, _, _ => some ([], [], [])
  | fuel + 1, d, pos, extEnd =>
    if pos + 4 ≤ extEnd then
      if pos + 2 ≤ d.length then
        if pos + 4 ≤ d.length then
          let extType := be16 d pos
          let extLen := be16 d (pos + 2)
          let dataStart := pos + 4
          if extEnd < dataStart + extLen then none
          else
            let newPos := dataStart + extLen
            let curvesHere : Option (List Nat) :=
              if extType = 10 then parseGroupsExt d dataStart newPos else some []
            let fmtsHere : Option (List Nat) :=
              if extType = 11 then parseFmtsExt d dataStart newPos else some []
            match curvesHere, fmtsHere with
            | some cs, some fs =>
              match parseExtsAux fuel d newPos extEnd with
              | some (es, cs2, fs2) => some (extType :: es, cs ++ cs2, fs ++ fs2)
              | none => none
            | _, _ => none
        else none
      else none
    else some ([], [], [])

/-- `parse_client_hello` (tls.rs lines 361-468): record header, handshake
header, version, random, session id, cipher suites, compression methods,
optional extensions. -/
def parse_client_hello (d : List Nat) : Option ClientHelloInfo :=
  if d.length < 5 then none
  else if d.getD 0 0 ≠ 22 then none
  else if d.length < 3 + 2 then none
  else
    let record_len := be16 d 3
    if d.length < 5 + record_len then none
    else if d.length ≤ 5 then none
    else
      let ht := d.getD 5 0
      if ht ≠ 1 then none
      else if d.length < 6 + 3 then none
      else if d.length < 9 + 2 then none
      else
        let tls_version := be16 d 9
        if d.length < 11 + 32 then none
        else if d.length ≤ 43 then none
        else
          let sid_len := d.getD 43 0
          if d.length < 44 + sid_len then none
          else
            let posCS := 44 + sid_len
            if d.length < posCS + 2 then none
            else
              let cs_len := be16 d posCS
              if d.length < posCS + 2 + cs_len ∨ cs_len % 2 ≠ 0 then none
              else
                match readCipherListAux (cs_len + 2) d (posCS + 2)
                    (posCS + 2 + cs_len) with
                | none => none
                | some (cipher_suites, posC) =>
                  if d.length ≤ posC then none
                  else
                    let comp_len := d.getD posC 0
                    if d.length < posC + 1 + comp_len then none
                    else
                      let posE := posC + 1 + comp_len
                      if posE + 2 ≤ d.length then
                        let ext_total := be16 d posE
                        let extEnd := posE + 2 + ext_total
                        if d.length < extEnd then none
                        else
                          match parseExtsAux (ext_total + 4) d (posE + 2) extEnd with
                          | none => none
                          | some (es, cs, fs) =>
                            some ⟨tls_version, cipher_suites, es, cs, fs⟩
                      else
                        some ⟨tls_version, cipher_suites, [], [], []⟩

/-- GREASE test (tls.rs lines 201-203): low nibbles 0x0a0a and equal high and
low bytes. -/
def is_grease (v : Nat) : Bool :=
  ((v &&& 0x0f0f) = 0x0a0a : Bool) && ((v >>> 8) = (v &&& 0xff) : Bool)

/-- Join decimal values with `-` (the `.join("-")` calls of
`extract_ja3_from_client_hello`). -/
def joinDash (parts : List Str) : Str := List.intercalate ['-'] parts

/-- `extract_ja3_from_client_hello` (tls.rs lines 190-248): parse, drop
GREASE values from ciphers, extensions and groups, build the canonical
`version,ciphers,extensions,groups,point_formats` string and hash it with
the hand-written MD5.  The string is ASCII, so its UTF-8 bytes are the
character codes. -/
def extract_ja3_from_client_hello (buf : List Nat) : Option Str :=
  (parse_client_hello buf).map fun info =>
    let extensions := joinDash
      ((info.extensions.filter (fun e => !is_grease e)).map natToStr)
    let curves := joinDash
      ((info.elliptic_curves.filter (fun c => !is_grease c)).map natToStr)
    let point_formats := joinDash (info.ec_point_formats.map natToStr)
    let ciphers_filtered := joinDash
      ((info.cipher_suites.filter (fun c => !is_grease c)).map natToStr)
    let ja3_string := natToStr info.tls_version ++ ',' :: ciphers_filtered
      ++ ',' :: extensions ++ ',' :: curves ++ ',' :: point_formats
    md5_hex (ja3_string.map Char.toNat)

/-- Evaluation of the cipher-suite loop over a two-suite list starting at
offset 46: it reads the two big-endian values and stops at the list end. -/
lemma readCipher_eval (d : List Nat) (hb1 : 48 ≤ d.length) (hb2 : 50 ≤ d.length)
    (h46v : be16 d 46 = 4865) (h48v : be16 d 48 = 4866) :
    readCipherListAux 6 d 46 50 = some ([4865, 4866], 50) := by
  simp [readCipherListAux, hb1, hb2, h46v, h48v]

/-- Evaluation of `parse_client_hello` on any buffer whose bytes at the
positions the parser reads describe an extension-free ClientHello with
version 0x0303, empty session id, cipher suites `[0x1301, 0x1302]` and an
empty compression list: the record-version bytes (offsets 1-2), the
handshake-length bytes (offsets 6-8) and the 32 random bytes (offsets
11-42) are never read, the record-length word only has to pass the parser's
bound, and the buffer ends after the compression list with at most one
slack byte (`t ≤ 1`) or with an explicit empty extensions block
(`t = 2` and a zero extensions-length word at offset 51). -/
lemma c5ParseShape (d : List Nat) (t : Nat)
    (hlen : d.length = 51 + t)
    (hrec : be16 d 3 ≤ 46 + t)
    (h0 : d.getD 0 0 = 22) (h5 : d.getD 5 0 = 1)
    (h9v : be16 d 9 = 771)
    (h43 : d.getD 43 0 = 0) (h44v : be16 d 44 = 4)
    (h46v : be16 d 46 = 4865) (h48v : be16 d 48 = 4866)
    (h50 : d.getD 50 0 = 0)
    (hext : t ≤ 1 ∨ (t = 2 ∧ be16 d 51 = 0)) :
    parse_client_hello d = some ⟨771, [4865, 4866], [], [], []⟩ := by
  have hcl : readCipherListAux 6 d 46 50 = some ([4865, 4866], 50) :=
    readCipher_eval d (by omega) (by omega) h46v h48v
  simp only [List.getD_eq_getElem?_getD] at h0 h5 h43 h50
  have cA : ¬ (d.length < 5) := by omega
  have cB : ¬ (d.length < 5 + be16 d 3) := by omega
  have cC : ¬ (d.length ≤ 5) := by omega
  have cD : ¬ (d.length < 9) := by omega
  have cE : ¬ (d.length < 11) := by omega
  have cF : ¬ (d.length < 43) := by omega
  have cG : ¬ (d.length ≤ 43) := by omega
  have cH : ¬ (d.length < 44) := by omega
  have cI : ¬ (d.length < 46) := by omega
  have cJ : ¬ (d.length < 50) := by omega
  have cK : ¬ (d.length ≤ 50) := by omega
  have cL : ¬ (d.length < 51) := by omega
  rcases hext with ht | ⟨rfl, h51v⟩
  · have cM : ¬ (53 ≤ d.length) := by omega
    unfold parse_client_hello
    simp [h0, h5, h9v, h43, h44v, h50, hcl, cA, cB, cC, cD, cE, cF, cG, cH,
      cI, cJ, cK, cL, cM]
  · have cM : (53 ≤ d.length) := by omega
    have cN : ¬ (d.length < 53) := by omega
    have hpe : parseExtsAux 4 d 53 53 = some ([], [], []) := by
      simp [parseExtsAux]
    unfold parse_client_hello
    simp [h0, h5, h9v, h43, h44v, h50, h51v, hcl, hpe, cA, cB, cC,
      cD, cE, cF, cG, cH, cI, cJ, cK, cL, cM, cN]

/-- The family of byte buffers encoding the extension-free ClientHello of
the claim: content type 0x16, arbitrary record-version bytes `v1 v2`,
record-length bytes `r1 r2`, handshake type 0x01, arbitrary
handshake-length bytes `n1 n2 n3`, client version 0x0303, an arbitrary
32-byte `rand`, empty session id, cipher suites `[0x1301, 0x1302]`
(bytes `0 4 19 1 19 2`), an empty compression-methods list, and a `tail`
that is empty, one slack byte, or the explicit empty extensions block
`[0, 0]`. -/
def ch5Fam (v1 v2 r1 r2 n1 n2 n3 : Nat) (rand tail : List Nat) : List Nat :=
  [22, v1, v2, r1, r2, 1, n1, n2, n3, 3, 3]
    ++ (rand ++ ([0, 0, 4, 19, 1, 19, 2, 0] ++ tail))

/-- Length of a family buffer with a 32-byte random. -/
lemma ch5Fam_length (v1 v2 r1 r2 n1 n2 n3 : Nat) (rand tail : List Nat)
    (hrand : rand.length = 32) :
    (ch5Fam v1 v2 r1 r2 n1 n2 n3 rand tail).length = 51 + tail.length := by
  simp [ch5Fam, hrand]
  omega

/-- Reads below offset 11 land in the header part of a family buffer. -/
lemma ch5Fam_getD_lo (v1 v2 r1 r2 n1 n2 n3 : Nat) (rand tail : List Nat)
    (j : Nat) (hj : j < 11) :
    (ch5Fam v1 v2 r1 r2 n1 n2 n3 rand tail).getD j 0
      = [22, v1, v2, r1, r2, 1, n1, n2, n3, 3, 3].getD j 0 := by
  unfold ch5Fam
  rw [List.getD_append _ _ _ _ (by simpa using hj)]

/-- Reads at offset 43 or beyond land past the 32-byte random of a family
buffer. -/
lemma ch5Fam_getD_hi (v1 v2 r1 r2 n1 n2 n3 : Nat) (rand tail : List Nat)
    (hrand : rand.length = 32) (j : Nat) (hj : 43 ≤ j) :
    (ch5Fam v1 v2 r1 r2 n1 n2 n3 rand tail).getD j 0
      = (([0, 0, 4, 19, 1, 19, 2, 0] : List Nat) ++ tail).getD (j - 43) 0 := by
  unfold ch5Fam
  rw [← List.append_assoc, List.getD_append_right]
  · congr 1
    simp [hrand]
  · simp [hrand]
    omega

set_option maxRecDepth 10000 in
/-- Every buffer of the encoding family parses to the ClientHello with
version 771, cipher suites `[4865, 4866]` and no extensions, groups or
point formats, whatever the record-version bytes, the admissible
record-length word, the handshake-length bytes, the 32 random bytes and
the tail shape are. -/
lemma c5_parse_fam (v1 v2 r1 r2 n1 n2 n3 : Nat) (rand tail : List Nat)
    (hrand : rand.length = 32)
    (hrec : r1 * 256 + r2 ≤ 46 + tail.length)
    (htail : tail.length ≤ 1 ∨ tail = [0, 0]) :
    parse_client_hello (ch5Fam v1 v2 r1 r2 n1 n2 n3 rand tail)
      = some ⟨771, [4865, 4866], [], [], []⟩ := by
  have g0 : (ch5Fam v1 v2 r1 r2 n1 n2 n3 rand tail).getD 0 0 = 22 := by
    rw [ch5Fam_getD_lo v1 v2 r1 r2 n1 n2 n3 rand tail 0 (by omega)]
    rfl
  have g5 : (ch5Fam v1 v2 r1 r2 n1 n2 n3 rand tail).getD 5 0 = 1 := by
    rw [ch5Fam_getD_lo v1 v2 r1 r2 n1 n2 n3 rand tail 5 (by omega)]
    rfl
  have g9v : be16 (ch5Fam v1 v2 r1 r2 n1 n2 n3 rand tail) 9 = 771 := by
    unfold be16
    rw [ch5Fam_getD_lo v1 v2 r1 r2 n1 n2 n3 rand tail 9 (by omega),
      ch5Fam_getD_lo v1 v2 r1 r2 n1 n2 n3 rand tail (9 + 1) (by omega)]
    rfl
  have g3v : be16 (ch5Fam v1 v2 r1 r2 n1 n2 n3 rand tail) 3 = r1 * 256 + r2 := by
    unfold be16
    rw [ch5Fam_getD_lo v1 v2 r1 r2 n1 n2 n3 rand tail 3 (by omega),
      ch5Fam_getD_lo v1 v2 r1 r2 n1 n2 n3 rand tail (3 + 1) (by omega)]
    rfl
  have g43 : (ch5Fam v1 v2 r1 r2 n1 n2 n3 rand tail).getD 43 0 = 0 := by
    rw [ch5Fam_getD_hi v1 v2 r1 r2 n1 n2 n3 rand tail hrand 43 (by omega)]
    rfl
  have g50 : (ch5Fam v1 v2 r1 r2 n1 n2 n3 rand tail).getD 50 0 = 0 := by
    rw [ch5Fam_getD_hi v1 v2 r1 r2 n1 n2 n3 rand tail hrand 50 (by omega)]
    rfl
  have g44v : be16 (ch5Fam v1 v2 r1 r2 n1 n2 n3 rand tail) 44 = 4 := by
    unfold be16
    rw [ch5Fam_getD_hi v1 v2 r1 r2 n1 n2 n3 rand tail hrand 44 (by omega),
      ch5Fam_getD_hi v1 v2 r1 r2 n1 n2 n3 rand tail hrand (44 + 1) (by omega)]
    rfl
  have g46v : be16 (ch5Fam v1 v2 r1 r2 n1 n2 n3 rand tail) 46 = 4865 := by
    unfold be16
    rw [ch5Fam_getD_hi v1 v2 r1 r2 n1 n2 n3 rand tail hrand 46 (by omega),
      ch5Fam_getD_hi v1 v2 r1 r2 n1 n2 n3 rand tail hrand (46 + 1) (by omega)]
    rfl
  have g48v : be16 (ch5Fam v1 v2 r1 r2 n1 n2 n3 rand tail) 48 = 4866 := by
    unfold be16
    rw [ch5Fam_getD_hi v1 v2 r1 r2 n1 n2 n3 rand tail hrand 48 (by omega),
      ch5Fam_getD_hi v1 v2 r1 r2 n1 n2 n3 rand tail hrand (48 + 1) (by omega)]
    rfl
  have hrecB : be16 (ch5Fam v1 v2 r1 r2 n1 n2 n3 rand tail) 3
      ≤ 46 + tail.length := by
    rw [g3v]; exact hrec
  rcases htail with ht | rfl
  · exact c5ParseShape _ tail.length
      (ch5Fam_length v1 v2 r1 r2 n1 n2 n3 rand tail hrand) hrecB
      g0 g5 g9v g43 g44v g46v g48v g50 (Or.inl ht)
  · have g51v : be16 (ch5Fam v1 v2 r1 r2 n1 n2 n3 rand [0, 0]) 51 = 0 := by
      unfold be16
      rw [ch5Fam_getD_hi v1 v2 r1 r2 n1 n2 n3 rand [0, 0] hrand 51 (by omega),
        ch5Fam_getD_hi v1 v2 r1 r2 n1 n2 n3 rand [0, 0] hrand (51 + 1) (by omega)]
      rfl
    exact c5ParseShape _ 2
      (ch5Fam_length v1 v2 r1 r2 n1 n2 n3 rand [0, 0] hrand) hrecB
      g0 g5 g9v g43 g44v g46v g48v g50 (Or.inr ⟨rfl, g51v⟩)

set_option maxRecDepth 20000 in
/-- C5: for every byte buffer encoding the TLS ClientHello record with
handshake type 0x01, client version 0x0303, an empty session id, the
cipher-suites list `[0x1301, 0x1302]`, an empty compression-methods list
and no extensions -- the record-version bytes, the record-length word
(within the parser's bound), the handshake-length bytes and the 32-byte
random are arbitrary, and the buffer ends after the compression list with
at most one slack byte or with an explicit empty extensions block -- the
extractor returns exactly `some` of the MD5 of the UTF-8 bytes of
`"771,4865-4866,,,"`, and the repository's hand-written `md5_hex` agrees
with the reference MD5 digest `3d406cfeb27540a8d99cecd58f281004` of that
string. -/
theorem c5_ja3 (v1 v2 r1 r2 n1 n2 n3 : Nat) (rand tail : List Nat)
    (_hhdr : v1 < 256 ∧ v2 < 256 ∧ r1 < 256 ∧ r2 < 256
      ∧ n1 < 256 ∧ n2 < 256 ∧ n3 < 256)
    (hrand : rand.length = 32) (_hrb : ∀ b ∈ rand, b < 256)
    (_htb : ∀ b ∈ tail, b < 256)
    (hrec : r1 * 256 + r2 ≤ 46 + tail.length)
    (htail : tail.length ≤ 1 ∨ tail = [0, 0]) :
    extract_ja3_from_client_hello (ch5Fam v1 v2 r1 r2 n1 n2 n3 rand tail)
      = some (md5_hex (['7', '7', '1', ',', '4', '8', '6', '5', '-', '4',
          '8', '6', '6', ',', ',', ','].map Char.toNat))
    ∧ md5_hex (['7', '7', '1', ',', '4', '8', '6', '5', '-', '4',
          '8', '6', '6', ',', ',', ','].map Char.toNat)
      = ['3', 'd', '4', '0', '6', 'c', 'f', 'e', 'b', '2', '7', '5', '4',
         '0', 'a', '8', 'd', '9', '9', 'c', 'e', 'c', 'd', '5', '8', 'f',
         '2', '8', '1', '0', '0', '4'] := by
  constructor
  · have hp := c5_parse_fam v1 v2 r1 r2 n1 n2 n3 rand tail hrand hrec htail
    unfold extract_ja3_from_client_hello
    rw [hp]
    decide
  · decide

set_option maxRecDepth 10000 in
/-- Witness for C5: a complete concrete member of the encoding family --
record version bytes 3 1, record length 48, handshake length 44, a
non-constant 32-byte random and an explicit empty extensions block --
satisfies every hypothesis, and the theorem applies to it. -/
theorem c5_ja3_witness :
    (((List.range 32).map (fun i => 7 * i + 3)).length = 32
      ∧ (∀ b ∈ (List.range 32).map (fun i => 7 * i + 3), b < 256)
      ∧ 0 * 256 + 48 ≤ 46 + ([0, 0] : List Nat).length
      ∧ (([0, 0] : List Nat).length ≤ 1 ∨ ([0, 0] : List Nat) = [0, 0]))
    ∧ extract_ja3_from_client_hello
        (ch5Fam 3 1 0 48 0 0 44 ((List.range 32).map (fun i => 7 * i + 3)) [0, 0])
      = some (md5_hex (['7', '7', '1', ',', '4', '8', '6', '5', '-', '4',
          '8', '6', '6', ',', ',', ','].map Char.toNat)) :=
  ⟨⟨by decide, by decide, by decide, by decide⟩,
    (c5_ja3 3 1 0 48 0 0 44 ((List.range 32).map (fun i => 7 * i + 3)) [0, 0]
      (by decide) (by decide) (by decide) (by decide) (by decide)
      (by decide)).1⟩

/-! ## String splitting utilities for the clearance cookie

These model `str::splitn(5, ':')`, `str::split(';')`, `str::trim` and
`str::strip_prefix` used by `has_valid_clearance` and `extract_cookie`
(src/protection/challenge.rs). -/

/-- Break a string at the first occurrence of `c`: `some (before, after)` or
`none` when `c` does not occur. -/
def breakAtChar (c : Char) : Str → Option (Str × Str)
  | [] => none
  | x :: xs =>
    if x = c then some ([], xs)
    else match breakAtChar c xs with
      | some (pre, post) => some (x :: pre, post)
      | none => none

/-- Rust `splitn(n, c)`: at most `n` pieces, the last piece unsplit. -/
def splitnChar (n : Nat) (c : Char) (l : Str) : List Str :=
  match n with
  | 0 => []
  | 1 => [l]
  | n + 2 =>
    match breakAtChar c l with
    | some (pre, post) => pre :: splitnChar (n + 1) c post
    | none => [l]

theorem breakAtChar_of_no_sep (c : Char) (l : Str) (h : c ∉ l) :
    breakAtChar c l = none := by
  induction l with
  | nil => rfl
  | cons x xs ih =>
    unfold breakAtChar
    rw [if_neg (by intro he; exact h (he ▸ List.mem_cons_self _ _))]
    rw [ih (fun hc => h (List.mem_cons_of_mem _ hc))]

theorem breakAtChar_append (c : Char) (a r : Str) (ha : c ∉ a) :
    breakAtChar c (a ++ c :: r) = some (a, r) := by
  induction a with
  | nil =>
    show breakAtChar c (c :: r) = _
    unfold breakAtChar
    rw [if_pos rfl]
  | cons x xs ih =>
    show breakAtChar c (x :: (xs ++ c :: r)) = _
    unfold breakAtChar
    rw [if_neg (by intro he; exact ha (he ▸ List.mem_cons_self _ _))]
    rw [ih (fun hc => ha (List.mem_cons_of_mem _ hc))]

theorem breakAtChar_inv (c : Char) :
    ∀ (l pre post : Str), breakAtChar c l = some (pre, post) →
      l = pre ++ c :: post ∧ c ∉ pre := by
  intro l
  induction l with
  | nil => intro pre post h; simp [breakAtChar] at h
  | cons x xs ih =>
    intro pre post h
    unfold breakAtChar at h
    by_cases hx : x = c
    · rw [if_pos hx] at h
      simp only [Option.some.injEq, Prod.mk.injEq] at h
      rw [← h.1, ← h.2, hx]
      exact ⟨rfl, by simp⟩
    · rw [if_neg hx] at h
      cases hb : breakAtChar c xs with
      | none => rw [hb] at h; simp at h
      | some pp =>
        obtain ⟨pre', post'⟩ := pp
        rw [hb] at h
        simp only [Option.some.injEq, Prod.mk.injEq] at h
        have hinv := ih pre' post' hb
        refine ⟨?_, ?_⟩
        · rw [← h.1, ← h.2]
          simp [hinv.1]
        · rw [← h.1]
          intro hc
          rcases List.mem_cons.mp hc with hc | hc
          · exact hx hc.symm
          · exact hinv.2 hc

theorem splitnChar_sep (n : Nat) (c : Char) (a r : Str) (ha : c ∉ a) :
    splitnChar (n + 2) c (a ++ c :: r) = a :: splitnChar (n + 1) c r := by
  conv_lhs => rw [splitnChar]
  rw [breakAtChar_append c a r ha]

theorem splitnChar_ne_nil (n : Nat) (c : Char) (l : Str) :
    splitnChar (n + 1) c l ≠ [] := by
  cases n with
  | zero => simp [splitnChar]
  | succ m =>
    unfold splitnChar
    cases breakAtChar c l with
    | none => simp
    | some pp => simp

/-- Rejoin pieces with the separator (inverse of `splitnChar`). -/
def joinSep (c : Char) : List Str → Str
  | [] => []
  | [x] => x
  | x :: xs => x ++ c :: joinSep c xs

theorem joinSep_cons (c : Char) (x : Str) (ps : List Str) (h : ps ≠ []) :
    joinSep c (x :: ps) = x ++ c :: joinSep c ps := by
  cases ps with
  | nil => exact absurd rfl h
  | cons y ys => rfl

theorem splitnChar_join (c : Char) :
    ∀ n l, joinSep c (splitnChar (n + 1) c l) = l := by
  intro n
  induction n with
  | zero => intro l; rfl
  | succ m ih =>
    intro l
    unfold splitnChar
    cases hb : breakAtChar c l with
    | none => rfl
    | some pp =>
      obtain ⟨pre, post⟩ := pp
      have hinv := breakAtChar_inv c l pre post hb
      dsimp only
      rw [joinSep_cons c pre _ (splitnChar_ne_nil m c post), ih post, hinv.1]

theorem splitnChar_dropLast_no_sep (c : Char) :
    ∀ n l, ∀ p ∈ (splitnChar (n + 1) c l).dropLast, c ∉ p := by
  intro n
  induction n with
  | zero => intro l p hp; simp [splitnChar] at hp
  | succ m ih =>
    intro l p hp
    unfold splitnChar at hp
    cases hb : breakAtChar c l with
    | none => rw [hb] at hp; simp at hp
    | some pp =>
      obtain ⟨pre, post⟩ := pp
      rw [hb] at hp
      dsimp only at hp
      have hne := splitnChar_ne_nil m c post
      rcases hps : splitnChar (m + 1) c post with _ | ⟨q, qs⟩
      · exact absurd hps hne
      · rw [hps] at hp
        rcases List.mem_cons.mp (by simpa using hp) with h1 | h1
        · exact h1 ▸ (breakAtChar_inv c l pre post hb).2
        · exact ih post p (by rw [hps]; simpa using h1)

/-- Rust `str::split(c)` as a list of segments. -/
def splitOnChar (c : Char) (l : Str) : List Str :=
  match hb : breakAtChar c l with
  | none => [l]
  | some (pre, post) => pre :: splitOnChar c post
termination_by l.length
decreasing_by
  have := breakAtChar_inv c l pre post hb
  rw [this.1]
  simp
  omega

theorem splitOnChar_no_sep (c : Char) (l : Str) (h : c ∉ l) :
    splitOnChar c l = [l] := by
  unfold splitOnChar
  rw [breakAtChar_of_no_sep c l h]

/-- Rust `str::trim_start` (whitespace). -/
def trimLeft (s : Str) : Str := s.dropWhile (fun ch => ch.isWhitespace)

/-- Rust `str::trim` (whitespace both ends). -/
def trimStr (s : Str) : Str :=
  ((trimLeft s).reverse.dropWhile (fun ch => ch.isWhitespace)).reverse

theorem dropWhile_of_forall_false {α : Type} {p : α → Bool} (s : List α)
    (h : ∀ c ∈ s, p c = false) : s.dropWhile p = s := by
  cases s with
  | nil => rfl
  | cons x xs =>
    rw [List.dropWhile_cons, if_neg (by rw [h x (by simp)]; simp)]

theorem trimStr_eq_self (s : Str) (h : ∀ c ∈ s, c.isWhitespace = false) :
    trimStr s = s := by
  unfold trimStr trimLeft
  rw [dropWhile_of_forall_false s h,
    dropWhile_of_forall_false s.reverse
      (fun c hc => h c (List.mem_reverse.mp hc)),
    List.reverse_reverse]

/-- Rust `str::strip_prefix`. -/
def stripPrefixStr : Str → Str → Option Str
  | [], s => some s
  | _ :: _, [] => none
  | p :: ps, x :: xs => if x = p then stripPrefixStr ps xs else none

theorem stripPrefixStr_append (p v : Str) : stripPrefixStr p (p ++ v) = some v := by
  induction p with
  | nil => rfl
  | cons x xs ih =>
    show stripPrefixStr (x :: xs) (x :: (xs ++ v)) = some v
    unfold stripPrefixStr
    rw [if_pos rfl, ih]

theorem stripPrefixStr_inv (p : Str) :
    ∀ s v, stripPrefixStr p s = some v → s = p ++ v := by
  induction p with
  | nil =>
    intro s v h
    simp only [stripPrefixStr, Option.some.injEq] at h
    simpa using h
  | cons x xs ih =>
    intro s v h
    cases s with
    | nil => simp [stripPrefixStr] at h
    | cons y ys =>
      unfold stripPrefixStr at h
      by_cases hy : y = x
      · rw [if_pos hy] at h
        rw [hy, List.cons_append, ih ys v h]
      · rw [if_neg hy] at h
        simp at h

/-! ## Clearance cookies (src/protection/challenge.rs)

`compute_signature` is HMAC-SHA256 over `challenge ++ ":" ++ nonce ++ ":" ++
purpose` with the configured secret, base64url-encoded — an external crypto
primitive, abstracted as a function `sign challenge nonce purpose` (a fixed
`sign` stands for a fixed HMAC secret).  `hash_ip` (truncated SHA-256 of the
IP or its subnet plus the secret) is abstracted as a function `hashIp`, a
fixed `hashIp` standing for a fixed secret and subnet-binding setting.
Timestamps are Unix seconds as `Int`. -/

/-- The `"clearance"` purpose tag. -/
def pClearance : Str := ['c', 'l', 'e', 'a', 'r', 'a', 'n', 'c', 'e']

/-- Characters legal in the random-hex / ip-hash / signature fields: not the
`:` cookie-field separator, not the `;` cookie-header separator, not
whitespace.  Hex strings and base64url satisfy this. -/
def SepFree (s : Str) : Prop :=
  ∀ c ∈ s, c ≠ ':' ∧ c ≠ ';' ∧ c.isWhitespace = false

/-- Characters that survive a cookie header unmangled: not `;`, not
whitespace (the `:` separator is allowed inside the cookie value). -/
def HeaderSafe (s : Str) : Prop := ∀ c ∈ s, c ≠ ';' ∧ c.isWhitespace = false

/-- `ChallengeSystem::extract_cookie`'s segment scan (lines 279-287):
trim each `;`-separated segment and strip the `name=` prefix. -/
def findCookieIn (name : Str) : List Str → Option Str
  | [] => none
  | seg :: rest =>
    match stripPrefixStr (name ++ ['=']) (trimStr seg) with
    | some v => some v
    | none => findCookieIn name rest

/-- `ChallengeSystem::extract_cookie` (lines 279-287). -/
def extract_cookie (name cookies : Str) : Option Str :=
  findCookieIn name (splitOnChar ';' cookies)

/-- `ChallengeSystem::has_valid_clearance` (lines 93-159): find the cookie,
split into 5 `:`-fields, check the HMAC signature with the `"clearance"`
purpose, parse and range-check the timestamp, compare the IP hash. -/
def has_valid_clearance (sign : Str → Str → Str → Str) (hashIp : Ip → Str)
    (name : Str) (maxAge : Nat) (now : Int) (ip : Ip)
    (cookies : Option Str) : Bool :=
  match cookies with
  | none => false
  | some cookies_str =>
    match extract_cookie name cookies_str with
    | none => false
    | some cookie_value =>
      let parts := splitnChar 5 ':' cookie_value
      if parts.length ≠ 5 then false
      else
        let timestamp_str := parts.getD 0 []
        let random_hex := parts.getD 1 []
        let ip_hash := parts.getD 2 []
        let nonce := parts.getD 3 []
        let signature := parts.getD 4 []
        let challenge := timestamp_str ++ ':' :: random_hex ++ ':' :: ip_hash
        if signature ≠ sign challenge nonce pClearance then false
        else
          match parseI64 timestamp_str with
          | none => false
          | some timestamp =>
            let age := now - timestamp
            if age < 0 ∨ (maxAge : Int) < age then false
            else if ip_hash ≠ hashIp ip then false
            else true

/-- The cookie value built by `ChallengeSystem::generate_clearance_cookie`
(lines 224-239) at time `t0` with randomness `random_hex`:
`timestamp:random_hex:ip_hash:0:signature` with the `"clearance"`-purpose
signature over the challenge and the fixed nonce `"0"`. -/
def generate_clearance_cookie_value (sign : Str → Str → Str → Str)
    (hashIp : Ip → Str) (t0 : Int) (random_hex : Str) (ip : Ip) : Str :=
  let challenge := intToStr t0 ++ ':' :: random_hex ++ ':' :: hashIp ip
  challenge ++ ':' :: '0' :: ':' :: sign challenge ['0'] pClearance

/-- A request Cookie header carrying the value `v` under `name`. -/
def cookieHeader (name v : Str) : Str := name ++ '=' :: v

theorem sepFree_headerSafe {s : Str} (h : SepFree s) : HeaderSafe s :=
  fun c hc => ⟨(h c hc).2.1, (h c hc).2.2⟩

theorem sepFree_no_colon {s : Str} (h : SepFree s) : ':' ∉ s :=
  fun hc => (h _ hc).1 rfl

theorem intToStr_sepFree (t : Int) : SepFree (intToStr t) := by
  intro c hc
  unfold intToStr at hc
  split at hc
  · rcases List.mem_cons.mp hc with h1 | h1
    · rw [h1]
      refine ⟨by decide, by decide, by decide⟩
    · have hd := natToStr_digits _ c h1
      exact ⟨(isDigit_ne hd).2.2.1, (isDigit_ne hd).2.2.2.1, (isDigit_ne hd).2.2.2.2⟩
  · have hd := natToStr_digits _ c hc
    exact ⟨(isDigit_ne hd).2.2.1, (isDigit_ne hd).2.2.2.1, (isDigit_ne hd).2.2.2.2⟩

theorem headerSafe_append {a b : Str} (ha : HeaderSafe a) (hb : HeaderSafe b) :
    HeaderSafe (a ++ b) := by
  intro c hc
  rcases List.mem_append.mp hc with h | h
  · exact ha c h
  · exact hb c h

theorem headerSafe_cons {c0 : Char} {s : Str}
    (hc0 : c0 ≠ ';' ∧ c0.isWhitespace = false) (hs : HeaderSafe s) :
    HeaderSafe (c0 :: s) := by
  intro c hc
  rcases List.mem_cons.mp hc with h | h
  · exact h ▸ hc0
  · exact hs c h

theorem extract_cookie_header (name v : Str)
    (hname : HeaderSafe name) (hv : HeaderSafe v) :
    extract_cookie name (cookieHeader name v) = some v := by
  unfold extract_cookie cookieHeader
  have hsafe : HeaderSafe (name ++ '=' :: v) :=
    headerSafe_append hname (headerSafe_cons ⟨by decide, by decide⟩ hv)
  rw [splitOnChar_no_sep ';' _ (fun hc => ((hsafe ';' hc).1) rfl)]
  unfold findCookieIn
  rw [trimStr_eq_self _ (fun c hc => (hsafe c hc).2)]
  have hre : name ++ '=' :: v = (name ++ ['=']) ++ v := by simp
  rw [hre, stripPrefixStr_append]

theorem splitn_genValue (sign : Str → Str → Str → Str) (hashIp : Ip → Str)
    (t0 : Int) (rand : Str) (ip : Ip)
    (hrand : ':' ∉ rand) (hhash : ':' ∉ hashIp ip) :
    splitnChar 5 ':' (generate_clearance_cookie_value sign hashIp t0 rand ip)
      = [intToStr t0, rand, hashIp ip, ['0'],
         sign (intToStr t0 ++ ':' :: rand ++ ':' :: hashIp ip) ['0'] pClearance] := by
  have hts : ':' ∉ intToStr t0 := sepFree_no_colon (intToStr_sepFree t0)
  have hassoc : generate_clearance_cookie_value sign hashIp t0 rand ip
      = intToStr t0 ++ ':' :: (rand ++ ':' :: (hashIp ip ++ ':' :: (['0'] ++ ':'
          :: sign (intToStr t0 ++ ':' :: rand ++ ':' :: hashIp ip) ['0'] pClearance))) := by
    simp [generate_clearance_cookie_value]
  rw [hassoc, splitnChar_sep 3 ':' _ _ hts, splitnChar_sep 2 ':' _ _ hrand,
    splitnChar_sep 1 ':' _ _ hhash, splitnChar_sep 0 ':' _ _ (by decide)]
  rfl

theorem has_valid_clearance_parts (sign : Str → Str → Str → Str)
    (hashIp : Ip → Str) (name : Str) (maxAge : Nat) (now : Int) (ip : Ip)
    (cookies_str v p0 p1 p2 p3 p4 : Str)
    (hext : extract_cookie name cookies_str = some v)
    (hsplit : splitnChar 5 ':' v = [p0, p1, p2, p3, p4]) :
    has_valid_clearance sign hashIp name maxAge now ip (some cookies_str)
      = (if p4 ≠ sign (p0 ++ ':' :: p1 ++ ':' :: p2) p3 pClearance then false
         else match parseI64 p0 with
           | none => false
           | some t =>
             if now - t < 0 ∨ (maxAge : Int) < now - t then false
             else if p2 ≠ hashIp ip then false
             else true) := by
  unfold has_valid_clearance
  dsimp only
  rw [hext]
  dsimp only
  rw [hsplit]
  rw [if_neg (by simp)]
  simp only [List.getD_cons_zero, List.getD_cons_succ]

theorem list_length_five {α : Type} (l : List α) (h : l.length = 5) :
    ∃ a b c d e, l = [a, b, c, d, e] := by
  rcases l with _ | ⟨a, l⟩
  · simp at h
  rcases l with _ | ⟨b, l⟩
  · simp at h
  rcases l with _ | ⟨c, l⟩
  · simp at h
  rcases l with _ | ⟨d, l⟩
  · simp at h
  rcases l with _ | ⟨e, l⟩
  · simp at h
  rcases l with _ | ⟨f, l⟩
  · exact ⟨a, b, c, d, e, rfl⟩
  · exfalso
    simp only [List.length_cons] at h
    omega

theorem append_sep_inj (c : Char) :
    ∀ (a x u w : Str), c ∉ a → c ∉ x →
      a ++ c :: u = x ++ c :: w → a = x ∧ u = w := by
  intro a
  induction a with
  | nil =>
    intro x u w _ hx heq
    cases x with
    | nil => simpa using heq
    | cons x0 xs =>
      simp only [List.nil_append, List.cons_append, List.cons.injEq] at heq
      exact absurd (by rw [heq.1]; exact List.mem_cons_self _ _) hx
  | cons a0 as ih =>
    intro x u w ha hx heq
    cases x with
    | nil =>
      simp only [List.nil_append, List.cons_append, List.cons.injEq] at heq
      exact absurd (by rw [← heq.1]; exact List.mem_cons_self _ _) ha
    | cons x0 xs =>
      simp only [List.cons_append, List.cons.injEq] at heq
      obtain ⟨h0, hrest⟩ := heq
      have hr := ih xs u w (fun hc => ha (List.mem_cons_of_mem _ hc))
        (fun hc => hx (List.mem_cons_of_mem _ hc)) hrest
      exact ⟨by rw [h0, hr.1], hr.2⟩

/-- C1: fix an HMAC secret and subnet-binding setting (a signing function
`sign` and an IP-hash function `hashIp`), a cookie name, and a max age.
(1) Completeness and freshness: a cookie value produced by
`generate_clearance_cookie(ip)` at time `t0`, presented in a Cookie header,
is accepted by `has_valid_clearance(ip, ·)` at time `now` iff
`0 ≤ now - t0 ≤ cookie_max_age_secs`.  (2) Soundness, under the ideal-MAC
reading: any accepted cookie value whose signature field can only equal a
`"clearance"`-purpose signature actually issued by the system (issued
signatures all have nonce `"0"` and an honestly shaped challenge — the
hypothesis on `sign` values) is, byte for byte, a possible output of
`generate_clearance_cookie(ip)` at some time `t0` with
`0 ≤ now - t0 ≤ cookie_max_age_secs`; every other value is rejected. -/
theorem c1_clearance_cookie_iff (sign : Str → Str → Str → Str)
    (hashIp : Ip → Str) (name : Str) (maxAge : Nat) (ip : Ip) (now : Int)
    (hname : HeaderSafe name)
    (hhash : ∀ i, SepFree (hashIp i))
    (hsig : ∀ ch n, SepFree (sign ch n pClearance)) :
    (∀ (t0 : Int) (rand : Str), SepFree rand →
      -(2 : Int) ^ 63 ≤ t0 → t0 ≤ 2 ^ 63 - 1 →
      (has_valid_clearance sign hashIp name maxAge now ip
          (some (cookieHeader name
            (generate_clearance_cookie_value sign hashIp t0 rand ip))) = true
        ↔ (0 ≤ now - t0 ∧ now - t0 ≤ (maxAge : Int))))
    ∧ (∀ (cookies_str v : Str),
        extract_cookie name cookies_str = some v →
        (∀ ch n, (splitnChar 5 ':' v).getD 4 [] = sign ch n pClearance →
          n = ['0'] ∧ ∃ (t0 : Int) (r h : Str), -(2 : Int) ^ 63 ≤ t0
            ∧ t0 ≤ 2 ^ 63 - 1 ∧ SepFree r ∧ (∃ ip', h = hashIp ip')
            ∧ ch = intToStr t0 ++ ':' :: r ++ ':' :: h) →
        has_valid_clearance sign hashIp name maxAge now ip (some cookies_str) = true →
        ∃ (t0 : Int) (rand : Str), SepFree rand
          ∧ v = generate_clearance_cookie_value sign hashIp t0 rand ip
          ∧ 0 ≤ now - t0 ∧ now - t0 ≤ (maxAge : Int)) := by
  constructor
  · intro t0 rand hrand hlo hhi
    have hvSafe : HeaderSafe (generate_clearance_cookie_value sign hashIp t0 rand ip) := by
      unfold generate_clearance_cookie_value
      refine headerSafe_append (headerSafe_append (headerSafe_append
        (sepFree_headerSafe (intToStr_sepFree t0))
        (headerSafe_cons ⟨by decide, by decide⟩ (sepFree_headerSafe hrand)))
        (headerSafe_cons ⟨by decide, by decide⟩
          (sepFree_headerSafe (hhash ip)))) ?_
      exact headerSafe_cons ⟨by decide, by decide⟩
        (headerSafe_cons ⟨by decide, by decide⟩
          (headerSafe_cons ⟨by decide, by decide⟩
            (sepFree_headerSafe (hsig _ _))))
    rw [has_valid_clearance_parts sign hashIp name maxAge now ip _ _ _ _ _ _ _
      (extract_cookie_header name _ hname hvSafe)
      (splitn_genValue sign hashIp t0 rand ip (sepFree_no_colon hrand)
        (sepFree_no_colon (hhash ip)))]
    rw [if_neg (fun h => h rfl)]
    rw [parseI64_intToStr hlo hhi]
    dsimp only
    constructor
    · intro htrue
      by_cases hage : now - t0 < 0 ∨ (maxAge : Int) < now - t0
      · rw [if_pos hage] at htrue
        exact absurd htrue (by simp)
      · push_neg at hage
        exact ⟨by omega, by omega⟩
    · intro hage
      rw [if_neg (by omega), if_neg (fun h => h rfl)]
  · intro cookies_str v hext hprov hacc
    unfold has_valid_clearance at hacc
    dsimp only at hacc
    rw [hext] at hacc
    dsimp only at hacc
    by_cases h5 : (splitnChar 5 ':' v).length ≠ 5
    · rw [if_pos h5] at hacc
      exact absurd hacc (by simp)
    · push_neg at h5
      obtain ⟨p0, p1, p2, p3, p4, hps⟩ := list_length_five _ h5
      rw [hps] at hacc
      rw [if_neg (by simp)] at hacc
      simp only [List.getD_cons_zero, List.getD_cons_succ] at hacc
      by_cases hsg : p4 ≠ sign (p0 ++ ':' :: p1 ++ ':' :: p2) p3 pClearance
      · rw [if_pos hsg] at hacc
        exact absurd hacc (by simp)
      · push_neg at hsg
        rw [if_neg (not_not_intro hsg)] at hacc
        have hp4 : (splitnChar 5 ':' v).getD 4 [] = p4 := by rw [hps]; rfl
        obtain ⟨hn0, t0, r, hh, hlo, hhi, hr, ⟨ip', hip'⟩, hch⟩ :=
          hprov (p0 ++ ':' :: p1 ++ ':' :: p2) p3 (by rw [hp4, hsg])
        have hdl : ∀ p ∈ (splitnChar 5 ':' v).dropLast, ':' ∉ p :=
          splitnChar_dropLast_no_sep ':' 4 v
        rw [hps] at hdl
        have hp0 : ':' ∉ p0 := hdl p0 (by simp)
        have hp1 : ':' ∉ p1 := hdl p1 (by simp)
        have hch' : p0 ++ ':' :: (p1 ++ ':' :: p2)
            = intToStr t0 ++ ':' :: (r ++ ':' :: hh) := by
          simpa [List.append_assoc] using hch
        have hinj1 := append_sep_inj ':' p0 (intToStr t0) (p1 ++ ':' :: p2)
          (r ++ ':' :: hh) hp0 (sepFree_no_colon (intToStr_sepFree t0)) hch'
        have hinj2 := append_sep_inj ':' p1 r p2 hh hp1
          (sepFree_no_colon hr) hinj1.2
        rw [hinj1.1, parseI64_intToStr hlo hhi] at hacc
        dsimp only at hacc
        by_cases hage : now - t0 < 0 ∨ (maxAge : Int) < now - t0
        · rw [if_pos hage] at hacc
          exact absurd hacc (by simp)
        · push_neg at hage
          rw [if_neg (by omega)] at hacc
          by_cases hhipEq : p2 ≠ hashIp ip
          · rw [if_pos hhipEq] at hacc
            exact absurd hacc (by simp)
          · push_neg at hhipEq
            have hjoin : joinSep ':' (splitnChar 5 ':' v) = v :=
              splitnChar_join ':' 4 v
            rw [hps] at hjoin
            refine ⟨t0, r, hr, ?_, by omega, by omega⟩
            rw [← hjoin]
            have hexp : joinSep ':' [p0, p1, p2, p3, p4]
                = p0 ++ ':' :: (p1 ++ ':' :: (p2 ++ ':' :: (p3 ++ ':' :: p4))) := rfl
            rw [hexp, hsg, hn0, hhipEq, hinj2.1, hinj1.1]
            simp [generate_clearance_cookie_value]

/-- Witness for C1: a concrete signing function, IP hash, cookie name and
fresh cookie (generated at `t0 = 3`, checked at `now = 7`, max age 10) is
accepted. -/
theorem c1_clearance_cookie_iff_witness :
    has_valid_clearance (fun _ _ _ => ['s']) (fun _ => ['h']) ['n'] 10 7 0
      (some (cookieHeader ['n']
        (generate_clearance_cookie_value (fun _ _ _ => ['s'])
          (fun _ => ['h']) 3 ['r'] 0))) = true := by
  refine ((c1_clearance_cookie_iff (fun _ _ _ => ['s']) (fun _ => ['h']) ['n']
      10 0 7 ?_ ?_ ?_).1 3 ['r'] ?_ (by norm_num) (by norm_num)).mpr
    ⟨by norm_num, by norm_num⟩
  · intro c hc
    rw [List.mem_singleton.mp hc]
    exact ⟨by decide, by decide⟩
  · intro i c hc
    rw [List.mem_singleton.mp hc]
    exact ⟨by decide, by decide, by decide⟩
  · intro ch n c hc
    rw [List.mem_singleton.mp hc]
    exact ⟨by decide, by decide, by decide⟩
  · intro c hc
    rw [List.mem_singleton.mp hc]
    exact ⟨by decide, by decide, by decide⟩

end Fortress
